import Mathlib

/-!
Verification of the transcript acquisition and format normalization pipeline
(`transcribe.py`, `summarize.py`).

The Python source is shallowly embedded: every function below mirrors one
source function (its doc comment names it).  Numeric seconds offsets are
modelled as exact rationals (the source uses IEEE doubles; all claims are
stated to millisecond tolerance, which is the precision the spec demands).
Strings are modelled as Lean `String`/`List Char`; Python builtins used by
the source (`float`, `str.split`, `str.strip`, `re` patterns fixed in the
source) are each given a definition faithful to their behaviour on the
character ranges the program exercises (ASCII digits / ASCII whitespace;
the source's regexes only ever match these in its own output formats).
Scanning loops are written with an explicit fuel argument (always called
with fuel at least the input length) so that every definition is executable
by the kernel.
-/

/-! ## Small character/list utilities -/

/-- Whitespace set of Python `str.strip` (ASCII part: `' '`, `\t`, `\n`, `\r`,
`\x0b`, `\x0c`). -/
def pyWs (c : Char) : Bool :=
  c = ' ' ∨ c = '\t' ∨ c = '\n' ∨ c = '\r' ∨ c = '\x0b' ∨ c = '\x0c'

/-- Python `str.strip()` on a character list: drop leading and trailing
whitespace. -/
def pyStripL (l : List Char) : List Char :=
  ((l.dropWhile pyWs).reverse.dropWhile pyWs).reverse

/-- Python `str.strip()`. -/
def pyStrip (s : String) : String :=
  String.mk (pyStripL s.data)

/-- Python `str.split(sep)` for a one-character separator. -/
def splitOnChar (sep : Char) : List Char → List (List Char)
  | [] => [[]]
  | c :: cs =>
    if c = sep then [] :: splitOnChar sep cs
    else
      match splitOnChar sep cs with
      | [] => [[c]]
      | p :: ps => (c :: p) :: ps

/-- Match a literal character sequence at the head of a list, returning the
remainder. -/
def expectSeq : List Char → List Char → Option (List Char)
  | [], l => some l
  | _ :: _, [] => none
  | p :: ps, x :: xs => if x = p then expectSeq ps xs else none

/-! ## Decimal rendering (Python `format` / `str` of integers) -/

/-- Decimal digit characters of `n` (helper with fuel; `natDigits` always
supplies enough). -/
def natDigitsAux : ℕ → ℕ → List Char
  | 0, n => [Nat.digitChar n]
  | f + 1, n =>
    if n < 10 then [Nat.digitChar n]
    else natDigitsAux f (n / 10) ++ [Nat.digitChar (n % 10)]

/-- Decimal digit characters of `n`, most significant first — the model of
Python `str` on a non-negative integer. -/
def natDigits (n : ℕ) : List Char := natDigitsAux n n

/-- Zero-pad the decimal rendering of `n` to width `w` — the model of Python
`format(n, '0Nd')` for non-negative `n`. -/
def padTo (w : ℕ) (n : ℕ) : List Char :=
  List.replicate (w - (natDigits n).length) '0' ++ natDigits n

/-- Python `f"{i:0Nd}"` on an integer: sign, then digits zero-padded so the
whole field (sign included) has width `w`. -/
def fmtPad (w : ℕ) (i : ℤ) : List Char :=
  if i < 0 then '-' :: padTo (w - 1) (-i).toNat else padTo w i.toNat

/-- Numeric value of a decimal digit string, as folded by positional
accumulation. -/
def digitsVal (l : List Char) : ℕ :=
  l.foldl (fun a c => 10 * a + (c.toNat - 48)) 0

/-! ## Python numeric primitives -/

/-- Python `int()` applied to a number: truncation toward zero. -/
def pyint (q : ℚ) : ℤ :=
  if 0 ≤ q then ⌊q⌋ else -⌊-q⌋

/-- Python `//` (floor division) on numbers, result kept as a number. -/
def pyfloordiv (a b : ℚ) : ℚ := (⌊a / b⌋ : ℤ)

/-- Python `%` on numbers: `a - b * (a // b)` (sign of the divisor). -/
def pymod (a b : ℚ) : ℚ := a - b * (⌊a / b⌋ : ℤ)

/-- Model of Python `float()` on the plain decimal literals this program
produces and consumes: optional sign, digits, optionally a point and more
digits; anything else (in particular a comma, or an empty field) is a
`ValueError`, modelled as `none`.  (Exponents, `inf`/`nan`, underscores and
surrounding whitespace never occur in this program's inputs and are outside
the modelled fragment.) -/
def stripSign (l : List Char) : ℚ × List Char :=
  if l.head? = some '-' then (-1, l.tail)
  else if l.head? = some '+' then (1, l.tail)
  else (1, l)

def pyfloat (l : List Char) : Option ℚ :=
  let sgn := (stripSign l).1
  let l1 := (stripSign l).2
  let ip := l1.takeWhile Char.isDigit
  let rest := l1.drop ip.length
  if rest.isEmpty then
    if ip.isEmpty then none else some (sgn * digitsVal ip)
  else if rest.head? = some '.' then
    let fp := rest.tail.takeWhile Char.isDigit
    if (rest.tail.drop fp.length).isEmpty then
      if ip.isEmpty ∧ fp.isEmpty then none
      else some (sgn * ((digitsVal ip : ℚ) + (digitsVal fp : ℚ) / 10 ^ fp.length))
    else none
  else none

/-! ## Timecode codec (`transcribe.py` lines 155-170, 256-262) -/

/-- `time_to_seconds` (transcribe.py 155-161): split on `':'`, convert the
first three fields with `float`, combine.  A missing field or a field
`float` rejects raises in Python, modelled as `none`. -/
def time_to_seconds (ts : String) : Option ℚ :=
  match splitOnChar ':' ts.data with
  | p0 :: p1 :: p2 :: _ =>
    match pyfloat p0, pyfloat p1, pyfloat p2 with
    | some h, some m, some s => some (h * 3600 + m * 60 + s)
    | _, _, _ => none
  | _ => none

/-- `seconds_to_srt_time` (transcribe.py 164-170): `HH:MM:SS,mmm` with a
comma before the milliseconds. -/
def seconds_to_srt_time (seconds : ℚ) : String :=
  let hours := pyint (pyfloordiv seconds 3600)
  let minutes := pyint (pyfloordiv (pymod seconds 3600) 60)
  let secs := pyint (pymod seconds 60)
  let millis := pyint (pymod seconds 1 * 1000)
  String.mk (fmtPad 2 hours ++ ':' :: fmtPad 2 minutes ++ ':' :: fmtPad 2 secs
    ++ ',' :: fmtPad 3 millis)

/-- `seconds_to_vtt_time` (transcribe.py 256-262): `HH:MM:SS.mmm` with a
point before the milliseconds. -/
def seconds_to_vtt_time (seconds : ℚ) : String :=
  let hours := pyint (pyfloordiv seconds 3600)
  let minutes := pyint (pyfloordiv (pymod seconds 3600) 60)
  let secs := pyint (pymod seconds 60)
  let millis := pyint (pymod seconds 1 * 1000)
  String.mk (fmtPad 2 hours ++ ':' :: fmtPad 2 minutes ++ ':' :: fmtPad 2 secs
    ++ '.' :: fmtPad 3 millis)

/-! ## Segment model (the dicts built by `parse_vtt` / `transcribe_audio`) -/

/-- One transcript segment: the dict `{'start': …, 'end': …, 'text': …}`
(`end` is a Lean keyword, so that field is called `stop`).  Timestamps are
stored as strings, exactly as in the source. -/
structure Segment where
  start : String
  stop : String
  text : String
deriving DecidableEq

/-! ## The `parse_vtt` regex scan (transcribe.py 129-152) -/

def digit2 : List Char → Option (Char × Char × List Char)
  | a :: b :: r => if a.isDigit ∧ b.isDigit then some (a, b, r) else none
  | _ => none

def digit1 : List Char → Option (Char × List Char)
  | a :: r => if a.isDigit then some (a, r) else none
  | _ => none

def expectChar (c : Char) : List Char → Option (List Char)
  | x :: r => if x = c then some r else none
  | _ => none

/-- Matcher for the timestamp piece `\d{2}:\d{2}:\d{2}\.\d{3}` of the
`parse_vtt` pattern: returns the matched characters and the remainder. -/
def tsPat (l : List Char) : Option (List Char × List Char) :=
  (digit2 l).bind fun (a, b, r1) =>
  (expectChar ':' r1).bind fun r2 =>
  (digit2 r2).bind fun (c, d, r3) =>
  (expectChar ':' r3).bind fun r4 =>
  (digit2 r4).bind fun (e, f, r5) =>
  (expectChar '.' r5).bind fun r6 =>
  (digit2 r6).bind fun (g, h, r7) =>
  (digit1 r7).bind fun (i, r8) =>
  some ([a, b, ':', c, d, ':', e, f, '.', g, h, i], r8)

/-- Matcher for the fixed part `(\d{2}:…) --> (\d{2}:…)\n` of the `parse_vtt`
pattern at the head of the input. -/
def matchTSline (l : List Char) : Option (String × String × List Char) :=
  (tsPat l).bind fun (t1, r1) =>
  (expectSeq " --> ".data r1).bind fun r2 =>
  (tsPat r2).bind fun (t2, r3) =>
  (expectChar '\n' r3).bind fun r4 =>
  some (String.mk t1, String.mk t2, r4)

/-- A string of exactly the shape `\d{2}:\d{2}:\d{2}\.\d{3}` — the stored
timestamp format produced by `parse_vtt` and `seconds_to_vtt_time`. -/
def isTimestamp (s : String) : Bool :=
  match tsPat s.data with
  | some (_, []) => true
  | _ => false

/-- `re.sub(r'<[^>]+>', '', ·)` (transcribe.py 144, summarize.py 60): at each
`'<'`, if at least one non-`'>'` character is followed by a `'>'`, the whole
bracketed run is removed; otherwise scanning moves on.  Fuel variant. -/
def removeTagsAux : ℕ → List Char → List Char
  | 0, l => l
  | _, [] => []
  | f + 1, c :: cs =>
    if c = '<' then
      let inner := cs.takeWhile (fun x => x ≠ '>')
      if inner.length ≠ 0 ∧ inner.length < cs.length then
        removeTagsAux f (cs.drop (inner.length + 1))
      else c :: removeTagsAux f cs
    else c :: removeTagsAux f cs

def removeTags (l : List Char) : List Char := removeTagsAux l.length l

/-- Scanner of `parse_vtt`'s `re.finditer` loop.  Under
`re.MULTILINE | re.DOTALL` the `$` alternative of the lookahead
`(?=\n\n|\n\d{2}:|$)` matches before every newline as well as at the end, so
the lazy group 3 is exactly the text up to the next newline (or the end);
scanning resumes at the match end.  Per match the source strips the text,
removes markup tags and keeps the segment only when non-empty. -/
def parseVTTAux : ℕ → List Char → List Segment
  | 0, _ => []
  | _, [] => []
  | f + 1, c :: cs =>
    match matchTSline (c :: cs) with
    | some (t1, t2, rest) =>
      let text := rest.takeWhile (fun x => x ≠ '\n')
      let cleaned := removeTags (pyStripL text)
      let tail := parseVTTAux f (rest.dropWhile (fun x => x ≠ '\n'))
      if cleaned.isEmpty then tail else ⟨t1, t2, String.mk cleaned⟩ :: tail
    | none => parseVTTAux f cs

/-- `parse_vtt` (transcribe.py 129-152). -/
def parse_vtt (content : String) : List Segment :=
  parseVTTAux content.data.length content.data

/-- The segments the timed-text-markup round trip can reproduce: canonical
`HH:MM:SS.mmm` timestamp strings, and a text that is non-empty, single-line,
already stripped of outer whitespace, and unchanged by markup-tag removal
(all properties the Segment Model guarantees for parser- or
transcription-produced segments). -/
def GoodSeg (s : Segment) : Prop :=
  isTimestamp s.start = true ∧ isTimestamp s.stop = true ∧ s.text ≠ "" ∧
    (∀ c ∈ s.text.data, c ≠ '\n') ∧ pyStripL s.text.data = s.text.data ∧
    removeTags s.text.data = s.text.data

instance (s : Segment) : Decidable (GoodSeg s) := by
  unfold GoodSeg
  infer_instance

/-! ## Serializers (transcribe.py 173-203) -/

/-- `save_txt` (transcribe.py 173-177): one text line per segment. -/
def save_txt : List Segment → String
  | [] => ""
  | s :: rest => s.text ++ "\n" ++ save_txt rest

/-- The per-segment loop of `save_vtt`. -/
def saveVttBody : List Segment → String
  | [] => ""
  | s :: rest => s.start ++ " --> " ++ s.stop ++ "\n" ++ s.text ++ "\n\n" ++ saveVttBody rest

/-- `save_vtt` (transcribe.py 180-186): header line, then each segment's
timestamp line, text and a blank separator. -/
def save_vtt (segments : List Segment) : String :=
  "WEBVTT\n\n" ++ saveVttBody segments

/-- The 1-indexed loop of `save_srt`; `none` models the `ValueError` /
`IndexError` that `time_to_seconds` raises on a timestamp it cannot parse. -/
def saveSrtBody : ℕ → List Segment → Option String
  | _, [] => some ""
  | i, s :: rest =>
    match time_to_seconds s.start, time_to_seconds s.stop, saveSrtBody (i + 1) rest with
    | some a, some b, some tail =>
      some (String.mk (natDigits i) ++ "\n" ++ seconds_to_srt_time a ++ " --> "
        ++ seconds_to_srt_time b ++ "\n" ++ s.text ++ "\n\n" ++ tail)
    | _, _, _ => none

/-- `save_srt` (transcribe.py 189-197). -/
def save_srt (segments : List Segment) : Option String := saveSrtBody 1 segments

/-! ## Acquisition orchestrator (transcribe.py 72-126, 312-332) -/

/-- `re.search(r'\d{2}:\d{2}:\d{2}', ·)` matching at the head position. -/
def tsSearchAt : List Char → Bool
  | a :: b :: c1 :: c :: d :: c2 :: e :: f :: _ =>
    a.isDigit && b.isDigit && c1 = ':' && c.isDigit && d.isDigit && c2 = ':'
      && e.isDigit && f.isDigit
  | _ => false

/-- `re.search(r'\d{2}:\d{2}:\d{2}', ·)` anywhere in the text. -/
def hasTS : List Char → Bool
  | [] => false
  | c :: cs => tsSearchAt (c :: cs) || hasTS cs

/-- The caption-document validation of `check_youtube_transcript`
(transcribe.py 96-98, 120-121): the stripped content must be longer than 10
characters and contain a `\d{2}:\d{2}:\d{2}` timestamp pattern. -/
def validContent (content : String) : Bool :=
  decide (10 < (pyStripL content.data).length) && hasTS (pyStripL content.data)

/-- The second (unrestricted / auto-caption) attempt of
`check_youtube_transcript` (transcribe.py 102-123), over the abstract fetch
outcome: `some content` when the subprocess exited 0 and wrote a `.vtt` file
with that content, `none` otherwise. -/
def tryUnrestricted (fetched : Option String) : Option String :=
  match fetched with
  | some c => if validContent c then some c else none
  | none => none

/-- `check_youtube_transcript` (transcribe.py 72-126) over the two abstract
fetch outcomes. -/
def check_youtube_transcript (a1 a2 : Option String) : Option String :=
  match a1 with
  | some c => if validContent c then some c else tryUnrestricted a2
  | none => tryUnrestricted a2

/-- The fallback decision of `main` (transcribe.py 312-332): audio download
and Whisper transcription run iff no fetched document validated, or the
accepted document parsed to zero segments. -/
def transcribeNeeded (a1 a2 : Option String) : Bool :=
  match check_youtube_transcript a1 a2 with
  | some c => (parse_vtt c).isEmpty
  | none => true

/-! ## Output-format selection (transcribe.py 297-310, 349-363) -/

/-- The `formats_to_save` set computed by `main` (transcribe.py 297-310) from
the repeated `--format` argument (`none` when absent) and the `--txt`
flag. -/
def formats_to_save (fmtArgs : Option (List String)) (txtFlag : Bool) : Finset String :=
  let base : Finset String :=
    match fmtArgs with
    | some fs => if "all" ∈ fs then {"vtt", "txt", "srt", "json"} else fs.toFinset ∪ {"vtt"}
    | none => {"vtt"}
  if txtFlag then base ∪ {"txt"} else base

/-- The extensions written by the output section of `main`
(transcribe.py 349-363), in program order. -/
def writtenExts (fmts : Finset String) : List String :=
  (if "vtt" ∈ fmts then ["vtt"] else []) ++ (if "txt" ∈ fmts then ["txt"] else [])
    ++ (if "srt" ∈ fmts then ["srt"] else []) ++ (if "json" ∈ fmts then ["json"] else [])

/-! ## Plain-Text Extractor (summarize.py 39-94) -/

/-- `str.startswith` on character lists. -/
def startsW : List Char → List Char → Bool
  | [], _ => true
  | _ :: _, [] => false
  | p :: ps, x :: xs => x = p && startsW ps xs

/-- Python's `in` on strings (substring containment). -/
def hasSub (pat : List Char) : List Char → Bool
  | [] => startsW pat []
  | c :: cs => startsW pat (c :: cs) || hasSub pat cs

/-- `line.isdigit()` (summarize.py 58) and equally `re.match(r'^\d+$', line)`
(summarize.py 72): non-empty and all decimal digits (ASCII fragment). -/
def pureDigits (l : List Char) : Bool := !l.isEmpty && l.all Char.isDigit

/-- The `.vtt` branch of `parse_transcript_file` (summarize.py 48-63). -/
def vttExtract (content : String) : String :=
  let lines := (splitOnChar '\n' content.data).map pyStripL
  let kept := lines.filter (fun l => !l.isEmpty && !startsW "WEBVTT".data l
    && !tsSearchAt l && !hasSub "-->".data l && !pureDigits l)
  let cleaned := (kept.map removeTags).filter (fun l => !l.isEmpty)
  String.mk (List.intercalate ['\n'] cleaned)

/-- The `.srt` branch of `parse_transcript_file` (summarize.py 65-77). -/
def srtExtract (content : String) : String :=
  let lines := (splitOnChar '\n' content.data).map pyStripL
  let kept := lines.filter (fun l => !l.isEmpty && !pureDigits l && !tsSearchAt l
    && !hasSub "-->".data l)
  String.mk (List.intercalate ['\n'] kept)

/-! ## JSON (`json.loads` / `str`, used by the `.json` branch) -/

/-- Values produced by `json.loads`: the Bool on `num` records whether the
number was decoded as a Python float (fraction or exponent present) rather
than an int. -/
inductive PyJson where
  | null : PyJson
  | bool : Bool → PyJson
  | num : Bool → ℚ → PyJson
  | str : String → PyJson
  | arr : List PyJson → PyJson
  | obj : List (String × PyJson) → PyJson

/-- JSON whitespace skip. -/
def jws (l : List Char) : List Char :=
  l.dropWhile (fun c => c = ' ' ∨ c = '\t' ∨ c = '\n' ∨ c = '\r')

def hexVal (c : Char) : ℕ :=
  if c.isDigit then c.toNat - 48
  else if 97 ≤ c.toNat then c.toNat - 87
  else c.toNat - 55

def isHexDig (c : Char) : Bool :=
  c.isDigit ∨ (97 ≤ c.toNat ∧ c.toNat ≤ 102) ∨ (65 ≤ c.toNat ∧ c.toNat ≤ 70)

def escChar (e : Char) : Option Char :=
  if e = '"' then some '"'
  else if e = '\\' then some '\\'
  else if e = '/' then some '/'
  else if e = 'b' then some '\x08'
  else if e = 'f' then some '\x0c'
  else if e = 'n' then some '\n'
  else if e = 'r' then some '\r'
  else if e = 't' then some '\t'
  else none

/-- JSON string body parser (after the opening quote).  Raw control
characters are rejected (Python's default `strict=True`); `\uXXXX` escapes
decode to the scalar value (surrogate escapes, which Python tolerates, are
outside the modelled fragment and rejected). -/
def parseJStr : ℕ → List Char → Option (List Char × List Char)
  | 0, _ => none
  | _ + 1, [] => none
  | f + 1, c :: r =>
    if c = '"' then some ([], r)
    else if c = '\\' then
      match r with
      | [] => none
      | e :: r2 =>
        if e = 'u' then
          match r2 with
          | h1 :: h2 :: h3 :: h4 :: r3 =>
            if isHexDig h1 ∧ isHexDig h2 ∧ isHexDig h3 ∧ isHexDig h4 then
              let v := hexVal h1 * 4096 + hexVal h2 * 256 + hexVal h3 * 16 + hexVal h4
              if 55296 ≤ v ∧ v < 57344 then none
              else
                match parseJStr f r3 with
                | some (cs, rest) => some (Char.ofNat v :: cs, rest)
                | none => none
            else none
          | _ => none
        else
          match escChar e with
          | some ec =>
            match parseJStr f r2 with
            | some (cs, rest) => some (ec :: cs, rest)
            | none => none
          | none => none
    else if c.toNat < 32 then none
    else
      match parseJStr f r with
      | some (cs, rest) => some (c :: cs, rest)
      | none => none

/-- JSON number parser, implementing the scanner regex
`(-?(?:0|[1-9]\d*))(\.\d+)?([eE][-+]?\d+)?` with maximal munch; the value is
exact (the source stores Python ints/floats). -/
def parseJNum (l : List Char) : Option (PyJson × List Char) :=
  let neg : Bool := l.head? = some '-'
  let l1 : List Char := if neg then l.tail else l
  match l1.head? with
  | none => none
  | some c =>
    if ¬ c.isDigit then none
    else
      let ip := if c = '0' then ['0'] else l1.takeWhile Char.isDigit
      let r1 := l1.drop ip.length
      let fp : List Char :=
        if r1.head? = some '.' then r1.tail.takeWhile Char.isDigit else []
      let r2 : List Char := if fp.isEmpty then r1 else r1.tail.drop fp.length
      let hasExp : Bool :=
        (r2.head? = some 'e' ∨ r2.head? = some 'E') &&
          (let t := r2.tail
           let t2 := if t.head? = some '-' ∨ t.head? = some '+' then t.tail else t
           !(t2.takeWhile Char.isDigit).isEmpty)
      let eNeg : Bool := hasExp && r2.tail.head? = some '-'
      let eDigits : List Char :=
        if hasExp then
          (if r2.tail.head? = some '-' ∨ r2.tail.head? = some '+' then r2.tail.tail
           else r2.tail).takeWhile Char.isDigit
        else []
      let r3 : List Char :=
        if hasExp then
          (if r2.tail.head? = some '-' ∨ r2.tail.head? = some '+' then r2.tail.tail
           else r2.tail).drop eDigits.length
        else r2
      let base : ℚ := (digitsVal ip : ℚ) +
        (if fp.isEmpty then 0 else (digitsVal fp : ℚ) / 10 ^ fp.length)
      let signed : ℚ := if neg then -base else base
      let valued : ℚ :=
        if hasExp then
          (if eNeg then signed / 10 ^ digitsVal eDigits else signed * 10 ^ digitsVal eDigits)
        else signed
      some (PyJson.num (!fp.isEmpty || hasExp) valued, r3)

mutual

/-- `json.loads` value parser (whitespace already skipped before the call).
`Infinity`/`NaN`, which Python additionally accepts, are outside the
modelled fragment. -/
def parseJVal : ℕ → List Char → Option (PyJson × List Char)
  | 0, _ => none
  | _ + 1, [] => none
  | f + 1, c :: r =>
    if c = '"' then
      match parseJStr (f + 1) r with
      | some (cs, rest) => some (PyJson.str (String.mk cs), rest)
      | none => none
    else if c = '[' then
      let r1 := jws r
      if r1.head? = some ']' then some (PyJson.arr [], r1.tail)
      else parseJArrLoop f r1 []
    else if c = '\x7b' then
      let r1 := jws r
      if r1.head? = some '\x7d' then some (PyJson.obj [], r1.tail)
      else parseJObjLoop f r1 []
    else if c = 't' then
      match expectSeq "rue".data r with
      | some rest => some (PyJson.bool true, rest)
      | none => none
    else if c = 'f' then
      match expectSeq "alse".data r with
      | some rest => some (PyJson.bool false, rest)
      | none => none
    else if c = 'n' then
      match expectSeq "ull".data r with
      | some rest => some (PyJson.null, rest)
      | none => none
    else if c = '-' ∨ c.isDigit then parseJNum (c :: r)
    else none

/-- Array element loop: positioned at the start of an element. -/
def parseJArrLoop : ℕ → List Char → List PyJson → Option (PyJson × List Char)
  | 0, _, _ => none
  | f + 1, l, acc =>
    match parseJVal f l with
    | some (v, r1) =>
      let r2 := jws r1
      if r2.head? = some ',' then parseJArrLoop f (jws r2.tail) (acc ++ [v])
      else if r2.head? = some ']' then some (PyJson.arr (acc ++ [v]), r2.tail)
      else none
    | none => none

/-- Object member loop: positioned at the start of a key. -/
def parseJObjLoop : ℕ → List Char → List (String × PyJson) →
    Option (PyJson × List Char)
  | 0, _, _ => none
  | f + 1, l, acc =>
    if l.head? = some '"' then
      match parseJStr (f + 1) l.tail with
      | some (k, r1) =>
        if (jws r1).head? = some ':' then
          match parseJVal f (jws (jws r1).tail) with
          | some (v, r3) =>
            let r4 := jws r3
            if r4.head? = some ',' then
              parseJObjLoop f (jws r4.tail) (acc ++ [(String.mk k, v)])
            else if r4.head? = some '\x7d' then
              some (PyJson.obj (acc ++ [(String.mk k, v)]), r4.tail)
            else none
          | none => none
        else none
      | none => none
    else none

end

/-- `json.loads` (summarize.py 82): parse one value and require only
whitespace after it; `none` models `json.JSONDecodeError`. -/
def json_loads (s : String) : Option PyJson :=
  match parseJVal (s.data.length + 1) (jws s.data) with
  | some (v, rest) => if (jws rest).isEmpty then some v else none
  | none => none

/-- Python `dict.get(key, default)` on the member list built by the object
parser; a later duplicate key overwrites an earlier one, hence the reversed
search. -/
def pyDictGet (kvs : List (String × PyJson)) (k : String) (dflt : PyJson) : PyJson :=
  match kvs.reverse.find? (fun kv => kv.1 = k) with
  | some kv => kv.2
  | none => dflt

/-- The comprehension and join of the `.json` list branch (summarize.py
83-86): dict elements contribute `seg.get('text', '')`, other elements are
skipped; `'\n'.join` raises `TypeError` (modelled `none`) when a contributed
value is not a string. -/
def collectTexts : List PyJson → Option (List String)
  | [] => some []
  | PyJson.obj kvs :: rest =>
    match pyDictGet kvs "text" (PyJson.str "") with
    | PyJson.str s =>
      match collectTexts rest with
      | some ts => some (s :: ts)
      | none => none
    | _ => none
  | _ :: rest => collectTexts rest

/-- Decimal digits of the fractional expansion of `num/den` (`num < den`),
ending when the remainder vanishes or the fuel runs out. -/
def fracDigits : ℕ → ℕ → ℕ → List Char
  | 0, _, _ => []
  | f + 1, num, den =>
    if num = 0 then []
    else Nat.digitChar (num * 10 / den) :: fracDigits f (num * 10 % den) den

/-- Python `str` on a decoded JSON number: ints render exactly; floats render
as their terminating decimal expansion (Python's shortest-repr subtleties for
doubles are outside the modelled fragment). -/
def numRepr (isFloat : Bool) (q : ℚ) : String :=
  let sign := if q < 0 then "-" else ""
  let n := q.num.natAbs
  let ip := String.mk (natDigits (n / q.den))
  if isFloat then
    let fr := fracDigits 20 (n % q.den) q.den
    sign ++ ip ++ "." ++ (if fr.isEmpty then "0" else String.mk fr)
  else sign ++ ip

/-- Python `repr` of a string (quoting; escape subtleties are outside the
modelled fragment). -/
def strReprPy (s : String) : String := "\x27" ++ s ++ "\x27"

mutual

/-- Python `repr` on a decoded JSON value. -/
def pyRepr : PyJson → String
  | PyJson.null => "None"
  | PyJson.bool b => if b then "True" else "False"
  | PyJson.num isF q => numRepr isF q
  | PyJson.str s => strReprPy s
  | PyJson.arr xs => "[" ++ String.intercalate ", " (pyReprList xs) ++ "]"
  | PyJson.obj kvs => "\x7b" ++ String.intercalate ", " (pyReprKVs kvs) ++ "\x7d"

/-- `repr` of each array element. -/
def pyReprList : List PyJson → List String
  | [] => []
  | v :: vs => pyRepr v :: pyReprList vs

/-- `repr` of each object member. -/
def pyReprKVs : List (String × PyJson) → List String
  | [] => []
  | (k, v) :: kvs => (strReprPy k ++ ": " ++ pyRepr v) :: pyReprKVs kvs

end

/-- Python `str()` (summarize.py 88) on a decoded JSON value: identity on
strings, `repr` otherwise. -/
def pyStr (v : PyJson) : String :=
  match v with
  | PyJson.str s => s
  | v => pyRepr v

/-- `parse_transcript_file` (summarize.py 39-94), on the file's suffix and
decoded text content.  `none` models an uncaught exception (possible only in
the `.json` list branch, when `'\n'.join` receives a non-string). -/
def parse_transcript_file (suffix : String) (content : String) : Option String :=
  if suffix = ".txt" then some (pyStrip content)
  else if suffix = ".vtt" then some (vttExtract content)
  else if suffix = ".srt" then some (srtExtract content)
  else if suffix = ".json" then
    match json_loads content with
    | some (PyJson.arr l) =>
      match collectTexts l with
      | some ts => some (String.intercalate "\n" ts)
      | none => none
    | some v => some (pyStr v)
    | none => some content
  else some (pyStrip content)

/-- The spec's description of the structured branch (§4.4 of the spec /
claim C6, as amended), stated independently for comparison with the
implementation. -/
def jsonExtractSpec (content : String) : Option String :=
  match json_loads content with
  | some (PyJson.arr l) => Option.map (String.intercalate "\n") (collectTexts l)
  | some v => some (pyStr v)
  | none => some content

/-- Whether the `.json` branch's join succeeds on this content (true in every
non-list or undecodable case). -/
def jsonJoinOk (content : String) : Bool :=
  match json_loads content with
  | some (PyJson.arr l) => (collectTexts l).isSome
  | _ => true

/-! ## UTF-8 decoding (`read_text(encoding='utf-8')`, summarize.py 41) -/

def utf8Cont (b : ℕ) : Bool := 128 ≤ b ∧ b < 192

/-- Strict UTF-8 decoding of a byte sequence (RFC 3629: overlong encodings
and surrogates rejected), as Python's `'utf-8'` codec does; `none` models
`UnicodeDecodeError`. -/
def utf8DecodeAux : ℕ → List ℕ → Option (List Char)
  | 0, [] => some []
  | 0, _ :: _ => none
  | _ + 1, [] => some []
  | f + 1, b :: bs =>
    if b < 128 then
      match utf8DecodeAux f bs with
      | some cs => some (Char.ofNat b :: cs)
      | none => none
    else if 194 ≤ b ∧ b ≤ 223 then
      match bs with
      | b2 :: bs2 =>
        if utf8Cont b2 then
          match utf8DecodeAux f bs2 with
          | some cs => some (Char.ofNat ((b - 192) * 64 + (b2 - 128)) :: cs)
          | none => none
        else none
      | [] => none
    else if 224 ≤ b ∧ b ≤ 239 then
      match bs with
      | b2 :: b3 :: bs3 =>
        if (if b = 224 then 160 else 128) ≤ b2 ∧ b2 ≤ (if b = 237 then 159 else 191)
            ∧ utf8Cont b3 then
          match utf8DecodeAux f bs3 with
          | some cs =>
            some (Char.ofNat ((b - 224) * 4096 + (b2 - 128) * 64 + (b3 - 128)) :: cs)
          | none => none
        else none
      | _ => none
    else if 240 ≤ b ∧ b ≤ 244 then
      match bs with
      | b2 :: b3 :: b4 :: bs4 =>
        if (if b = 240 then 144 else 128) ≤ b2 ∧ b2 ≤ (if b = 244 then 143 else 191)
            ∧ utf8Cont b3 ∧ utf8Cont b4 then
          match utf8DecodeAux f bs4 with
          | some cs =>
            some (Char.ofNat ((b - 240) * 262144 + (b2 - 128) * 4096
              + (b3 - 128) * 64 + (b4 - 128)) :: cs)
          | none => none
        else none
      | _ => none
    else none

def utf8Decode (bytes : List ℕ) : Option (List Char) := utf8DecodeAux bytes.length bytes

/-- `parse_transcript_file` including the `file_path.read_text(encoding='utf-8')`
step (summarize.py 41), which raises `UnicodeDecodeError` (modelled `none`)
on byte content that is not valid UTF-8. -/
def parse_transcript_file_bytes (suffix : String) (content : List ℕ) : Option String :=
  match utf8Decode content with
  | some cs => parse_transcript_file suffix (String.mk cs)
  | none => none

/-! ## Transcript-file discovery (summarize.py 97-114) -/

/-- Python `<` on strings (and on same-directory `Path`s, which compare by
their name): lexicographic by code point, shorter prefix first. -/
def pyLt : List Char → List Char → Bool
  | _, [] => false
  | [], _ :: _ => true
  | a :: xs, b :: ys => if a < b then true else if b < a then false else pyLt xs ys

/-- The `≤` order `sorted` produces: not strictly greater. -/
def pyLe (a b : String) : Bool := ! pyLt b.data a.data

def srtInsert (x : String) : List String → List String
  | [] => [x]
  | y :: ys => if pyLe x y then x :: y :: ys else y :: srtInsert x ys

/-- Python `sorted` (ascending, stable), as insertion sort — extensionally
the unique stable ascending sort. -/
def pySorted : List String → List String
  | [] => []
  | x :: xs => srtInsert x (pySorted xs)

/-- Python `Path.stem`: the name with its last suffix removed; a dot at
position 0 or at the very end does not start a suffix (CPython
`0 < i < len(name) - 1`). -/
def pyStem (name : String) : String :=
  match name.data.reverse.findIdx? (fun c => c = '.') with
  | some j =>
    let i := name.data.length - 1 - j
    if 0 < i ∧ i < name.data.length - 1 then String.mk (name.data.take i) else name
  | none => name

/-- `path.glob('*' + ext)` membership: pathlib's fnmatch translation of
`*ext` is "name ends with ext". -/
def endsW (n ext : String) : Bool := ext.data.isSuffixOf n.data

/-- The `files` list of `list_transcript_files` (summarize.py 99-103): the
four globs concatenated (the four extensions do not overlap, so the globs
are disjoint). -/
def candidateFiles (names : List String) : List String :=
  names.filter (fun n => endsW n ".txt") ++ names.filter (fun n => endsW n ".vtt")
    ++ names.filter (fun n => endsW n ".srt") ++ names.filter (fun n => endsW n ".json")

/-- The dedup-by-stem loop of `list_transcript_files` (summarize.py 106-112),
carrying the `seen` set. -/
def dedupeAux : List String → List String → List String
  | _, [] => []
  | seen, f :: fs =>
    if pyStem f ∈ seen then dedupeAux seen fs
    else f :: dedupeAux (pyStem f :: seen) fs

/-- `list_transcript_files` (summarize.py 97-114). -/
def list_transcript_files (names : List String) : List String :=
  dedupeAux [] (pySorted (candidateFiles names))

/-! ## Lemmas: decimal digits -/

theorem natDigitsAux_congr : ∀ f g n : ℕ, n ≤ f → n ≤ g → natDigitsAux f n = natDigitsAux g n
  | 0, 0, _, _, _ => rfl
  | 0, g + 1, n, hf, _ => by
    have hn : n = 0 := Nat.le_zero.1 hf
    subst hn
    simp [natDigitsAux]
  | f + 1, 0, n, _, hg => by
    have hn : n = 0 := Nat.le_zero.1 hg
    subst hn
    simp [natDigitsAux]
  | f + 1, g + 1, n, hf, hg => by
    by_cases h : n < 10
    · simp [natDigitsAux, h]
    · have hdiv : n / 10 < n := Nat.div_lt_self (by omega) (by omega)
      have h1 : n / 10 ≤ f := by omega
      have h2 : n / 10 ≤ g := by omega
      simp only [natDigitsAux, if_neg h]
      rw [natDigitsAux_congr f g (n / 10) h1 h2]

theorem natDigits_lt10 {n : ℕ} (h : n < 10) : natDigits n = [Nat.digitChar n] := by
  cases n with
  | zero => rfl
  | succ m => simp [natDigits, natDigitsAux, h]

theorem natDigits_ge10 {n : ℕ} (h : 10 ≤ n) :
    natDigits n = natDigits (n / 10) ++ [Nat.digitChar (n % 10)] := by
  obtain ⟨m, rfl⟩ : ∃ m, n = m + 1 := ⟨n - 1, by omega⟩
  have hdiv : (m + 1) / 10 < m + 1 := Nat.div_lt_self (by omega) (by omega)
  show natDigitsAux (m + 1) (m + 1) = _
  simp only [natDigitsAux, if_neg (Nat.not_lt.2 h)]
  rw [natDigitsAux_congr m ((m + 1) / 10) ((m + 1) / 10) (by omega) le_rfl]
  rfl

theorem digitChar_isDigit {d : ℕ} (h : d < 10) : (Nat.digitChar d).isDigit = true := by
  interval_cases d <;> decide

theorem digitChar_sub48 {d : ℕ} (h : d < 10) : (Nat.digitChar d).toNat - 48 = d := by
  interval_cases d <;> decide

theorem natDigits_ne_nil (n : ℕ) : natDigits n ≠ [] := by
  by_cases h : n < 10
  · simp [natDigits_lt10 h]
  · simp [natDigits_ge10 (Nat.le_of_not_lt h)]

theorem natDigits_all_digit (n : ℕ) : ∀ c ∈ natDigits n, c.isDigit = true := by
  induction n using Nat.strong_induction_on with
  | _ n ih =>
    by_cases h : n < 10
    · intro c hc
      rw [natDigits_lt10 h] at hc
      simp at hc
      subst hc
      exact digitChar_isDigit h
    · intro c hc
      rw [natDigits_ge10 (Nat.le_of_not_lt h)] at hc
      rcases List.mem_append.1 hc with h1 | h2
      · exact ih (n / 10) (Nat.div_lt_self (by omega) (by omega)) c h1
      · simp at h2
        subst h2
        exact digitChar_isDigit (Nat.mod_lt _ (by omega))

theorem foldl_natDigits (n : ℕ) :
    ∀ acc : ℕ, (natDigits n).foldl (fun a c => 10 * a + (c.toNat - 48)) acc
      = acc * 10 ^ (natDigits n).length + n := by
  induction n using Nat.strong_induction_on with
  | _ n ih =>
    intro acc
    by_cases h : n < 10
    · simp [natDigits_lt10 h, digitChar_sub48 h]
      omega
    · rw [natDigits_ge10 (Nat.le_of_not_lt h), List.foldl_append]
      simp only [List.foldl_cons, List.foldl_nil]
      rw [ih (n / 10) (Nat.div_lt_self (by omega) (by omega)) acc]
      rw [digitChar_sub48 (Nat.mod_lt _ (by omega))]
      rw [List.length_append]
      have hp : 10 ^ ((natDigits (n / 10)).length + [Nat.digitChar (n % 10)].length)
          = 10 ^ (natDigits (n / 10)).length * 10 := by
        simp [pow_succ]
      rw [hp]
      have hdm := Nat.div_add_mod n 10
      generalize (10 : ℕ) ^ (natDigits (n / 10)).length = K
      ring_nf
      omega

theorem digitsVal_natDigits (n : ℕ) : digitsVal (natDigits n) = n := by
  have := foldl_natDigits n 0
  simpa [digitsVal] using this

theorem natDigits_len_le : ∀ k : ℕ, ∀ n : ℕ, n < 10 ^ k → 1 ≤ k → (natDigits n).length ≤ k := by
  intro k
  induction k with
  | zero => omega
  | succ j ihj =>
    intro n hn _
    by_cases h : n < 10
    · simp [natDigits_lt10 h]
    · have hj : 1 ≤ j := by
        by_contra hj0
        have : j = 0 := by omega
        subst this
        simp at hn
        omega
      have hd : n / 10 < 10 ^ j := by
        rw [Nat.div_lt_iff_lt_mul (by omega : 0 < 10)]
        calc n < 10 ^ (j + 1) := hn
        _ = 10 ^ j * 10 := by rw [pow_succ]
      rw [natDigits_ge10 (Nat.le_of_not_lt h)]
      have := ihj (n / 10) hd hj
      simp [List.length_append]
      omega

theorem padTo_all_digit (w n : ℕ) : ∀ c ∈ padTo w n, c.isDigit = true := by
  intro c hc
  rcases List.mem_append.1 hc with h1 | h2
  · have : c = '0' := by
      have := List.eq_of_mem_replicate h1
      exact this
    subst this
    decide
  · exact natDigits_all_digit n c h2

theorem padTo_ne_nil (w n : ℕ) : padTo w n ≠ [] := by
  intro h
  rcases List.append_eq_nil.1 h with ⟨_, h2⟩
  exact natDigits_ne_nil n h2

theorem digitsVal_padTo (w n : ℕ) : digitsVal (padTo w n) = n := by
  unfold padTo digitsVal
  rw [List.foldl_append]
  have hz : ∀ k : ℕ, (List.replicate k '0').foldl (fun a c => 10 * a + (c.toNat - 48)) 0 = 0 := by
    intro k
    induction k with
    | zero => rfl
    | succ m ihm => simpa [List.replicate_succ]
  rw [hz]
  have := foldl_natDigits n 0
  simpa using this

theorem padTo_len {w n : ℕ} (h : n < 10 ^ w) (hw : 1 ≤ w) : (padTo w n).length = w := by
  have := natDigits_len_le w n h hw
  simp [padTo, List.length_append, List.length_replicate]
  omega

theorem isDigit_ne {c x : Char} (h : c.isDigit = true) (hx : x.isDigit = false) : c ≠ x := by
  intro e
  subst e
  rw [h] at hx
  cases hx

/-! ## Lemmas: splitting and digit-string parsing -/

theorem takeWhile_all {p : Char → Bool} : ∀ {l : List Char}, (∀ c ∈ l, p c = true) →
    List.takeWhile p l = l
  | [], _ => rfl
  | c :: cs, h => by
    have hc : p c = true := h c (by simp)
    simp only [List.takeWhile_cons, hc, if_true]
    rw [takeWhile_all (fun x hx => h x (by simp [hx]))]

theorem takeWhile_all_append {p : Char → Bool} :
    ∀ {l1 : List Char} {x : Char} {l2 : List Char}, (∀ c ∈ l1, p c = true) → p x = false →
    List.takeWhile p (l1 ++ x :: l2) = l1
  | [], x, l2, _, hx => by simp [List.takeWhile_cons, hx]
  | c :: cs, x, l2, h, hx => by
    have hc : p c = true := h c (by simp)
    simp only [List.cons_append, List.takeWhile_cons, hc, if_true]
    rw [takeWhile_all_append (fun y hy => h y (by simp [hy])) hx]

theorem splitOnChar_no_sep {sep : Char} : ∀ {l : List Char}, (∀ c ∈ l, c ≠ sep) →
    splitOnChar sep l = [l]
  | [], _ => rfl
  | c :: cs, h => by
    have hc : ¬ c = sep := h c (by simp)
    simp only [splitOnChar, if_neg hc]
    rw [splitOnChar_no_sep (fun x hx => h x (by simp [hx]))]

theorem splitOnChar_append {sep : Char} :
    ∀ {l : List Char} {r : List Char}, (∀ c ∈ l, c ≠ sep) →
    splitOnChar sep (l ++ sep :: r) = l :: splitOnChar sep r
  | [], r, _ => by simp [splitOnChar]
  | c :: cs, r, h => by
    have hc : ¬ c = sep := h c (by simp)
    simp only [List.cons_append, splitOnChar, if_neg hc, List.append_eq]
    rw [splitOnChar_append (fun x hx => h x (by simp [hx]))]

theorem stripSign_digit {c : Char} {cs : List Char} (hc : c.isDigit = true) :
    stripSign (c :: cs) = (1, c :: cs) := by
  have hcm : c ≠ '-' := isDigit_ne hc (by decide)
  have hcp : c ≠ '+' := isDigit_ne hc (by decide)
  unfold stripSign
  rw [if_neg (by simp [hcm]), if_neg (by simp [hcp])]

theorem pyfloat_digits {l : List Char} (hne : l ≠ []) (hd : ∀ c ∈ l, c.isDigit = true) :
    pyfloat l = some (digitsVal l) := by
  obtain ⟨c, cs, rfl⟩ := List.exists_cons_of_ne_nil hne
  have hc : c.isDigit = true := hd c (by simp)
  have htw : List.takeWhile Char.isDigit (c :: cs) = c :: cs := takeWhile_all hd
  simp only [pyfloat, stripSign_digit hc]
  rw [htw, List.drop_length]
  simp

theorem pyfloat_digits_dot {l1 l2 : List Char} (h1 : l1 ≠ []) (hd1 : ∀ c ∈ l1, c.isDigit = true)
    (h2 : l2 ≠ []) (hd2 : ∀ c ∈ l2, c.isDigit = true) :
    pyfloat (l1 ++ '.' :: l2) = some ((digitsVal l1 : ℚ) + (digitsVal l2 : ℚ) / 10 ^ l2.length) := by
  obtain ⟨c, cs, rfl⟩ := List.exists_cons_of_ne_nil h1
  have hc : c.isDigit = true := hd1 c (by simp)
  have hs : stripSign ((c :: cs) ++ '.' :: l2) = (1, (c :: cs) ++ '.' :: l2) := by
    have : ((c :: cs) ++ '.' :: l2) = c :: (cs ++ '.' :: l2) := rfl
    rw [this, stripSign_digit hc]
  have htw : List.takeWhile Char.isDigit ((c :: cs) ++ '.' :: l2) = c :: cs :=
    takeWhile_all_append hd1 (by decide)
  have hdrop : ((c :: cs) ++ '.' :: l2).drop (c :: cs).length = '.' :: l2 :=
    List.drop_left _ _
  simp only [pyfloat, hs]
  rw [htw, hdrop]
  simp only [List.isEmpty_cons, List.head?_cons, List.tail_cons]
  rw [if_neg (by simp)]
  simp [takeWhile_all hd2, List.drop_length]

/-! ## Lemmas: floor arithmetic for the timecode fields -/

theorem pymod_nonneg (a : ℚ) {b : ℚ} (hb : 0 < b) : 0 ≤ pymod a b := by
  have h2 : ((⌊a / b⌋ : ℤ) : ℚ) * b ≤ a / b * b :=
    mul_le_mul_of_nonneg_right (Int.floor_le _) hb.le
  rw [div_mul_cancel₀ _ (ne_of_gt hb)] at h2
  unfold pymod
  nlinarith [h2]

theorem pymod_lt (a : ℚ) {b : ℚ} (hb : 0 < b) : pymod a b < b := by
  have h2 : a / b * b < (((⌊a / b⌋ : ℤ) : ℚ) + 1) * b :=
    mul_lt_mul_of_pos_right (Int.lt_floor_add_one _) hb
  rw [div_mul_cancel₀ _ (ne_of_gt hb)] at h2
  unfold pymod
  nlinarith [h2]

theorem floor_minutes (s : ℚ) : ⌊pymod s 3600 / 60⌋ = ⌊s / 60⌋ - 60 * ⌊s / 3600⌋ := by
  have h : pymod s 3600 / 60 = s / 60 - ((60 * ⌊s / 3600⌋ : ℤ) : ℚ) := by
    unfold pymod
    push_cast
    ring
  rw [h, Int.floor_sub_int]

theorem floor_secs (s : ℚ) : ⌊pymod s 60⌋ = ⌊s⌋ - 60 * ⌊s / 60⌋ := by
  have h : pymod s 60 = s - ((60 * ⌊s / 60⌋ : ℤ) : ℚ) := by
    unfold pymod
    push_cast
    ring
  rw [h, Int.floor_sub_int]

theorem floor_millis (s : ℚ) : ⌊pymod s 1 * 1000⌋ = ⌊1000 * s⌋ - 1000 * ⌊s⌋ := by
  have h1 : pymod s 1 * 1000 = 1000 * s - ((1000 * ⌊s⌋ : ℤ) : ℚ) := by
    unfold pymod
    rw [div_one]
    push_cast
    ring
  rw [h1, Int.floor_sub_int]

theorem pyint_intCast (n : ℤ) : pyint (n : ℚ) = n := by
  unfold pyint
  by_cases h : (0 : ℚ) ≤ (n : ℚ)
  · rw [if_pos h, Int.floor_intCast]
  · rw [if_neg h, show -(n : ℚ) = ((-n : ℤ) : ℚ) by push_cast; ring, Int.floor_intCast]
    ring

theorem pyint_nonneg_floor {q : ℚ} (h : 0 ≤ q) : pyint q = ⌊q⌋ := if_pos h

theorem hours_nonneg {s : ℚ} (hs : 0 ≤ s) : 0 ≤ ⌊s / 3600⌋ :=
  Int.floor_nonneg.2 (div_nonneg hs (by norm_num))

theorem minutes_bounds (s : ℚ) : 0 ≤ ⌊pymod s 3600 / 60⌋ ∧ ⌊pymod s 3600 / 60⌋ < 60 := by
  constructor
  · exact Int.floor_nonneg.2 (div_nonneg (pymod_nonneg s (by norm_num)) (by norm_num))
  · apply Int.floor_lt.2
    rw [div_lt_iff (by norm_num : (0 : ℚ) < 60)]
    have := pymod_lt s (show (0 : ℚ) < 3600 by norm_num)
    push_cast
    linarith

theorem secs_bounds (s : ℚ) : 0 ≤ ⌊pymod s 60⌋ ∧ ⌊pymod s 60⌋ < 60 := by
  constructor
  · exact Int.floor_nonneg.2 (pymod_nonneg s (by norm_num))
  · apply Int.floor_lt.2
    have := pymod_lt s (show (0 : ℚ) < 60 by norm_num)
    push_cast
    linarith

theorem millis_bounds (s : ℚ) : 0 ≤ ⌊pymod s 1 * 1000⌋ ∧ ⌊pymod s 1 * 1000⌋ < 1000 := by
  constructor
  · exact Int.floor_nonneg.2 (mul_nonneg (pymod_nonneg s (by norm_num)) (by norm_num))
  · apply Int.floor_lt.2
    have := pymod_lt s (show (0 : ℚ) < 1 by norm_num)
    push_cast
    nlinarith

/-! ## The formatted timestamp string and its re-parse -/

theorem time_to_seconds_fields (H M S ms : ℕ) (hms : ms < 1000) :
    time_to_seconds (String.mk (padTo 2 H ++ ':' ::
      (padTo 2 M ++ ':' :: (padTo 2 S ++ '.' :: padTo 3 ms))))
      = some ((H : ℚ) * 3600 + (M : ℚ) * 60 + ((S : ℚ) + (ms : ℚ) / 1000)) := by
  have hcolon : ∀ (n w : ℕ), ∀ c ∈ padTo w n, c ≠ ':' := fun n w c hc =>
    isDigit_ne (padTo_all_digit w n c hc) (by decide)
  have hlast : ∀ c ∈ padTo 2 S ++ '.' :: padTo 3 ms, c ≠ ':' := by
    intro c hc
    rcases List.mem_append.1 hc with h1 | h2
    · exact hcolon S 2 c h1
    · rcases List.mem_cons.1 h2 with h3 | h4
      · subst h3
        decide
      · exact hcolon ms 3 c h4
  unfold time_to_seconds
  rw [show (String.mk (padTo 2 H ++ ':' ::
      (padTo 2 M ++ ':' :: (padTo 2 S ++ '.' :: padTo 3 ms)))).data
      = padTo 2 H ++ ':' :: (padTo 2 M ++ ':' :: (padTo 2 S ++ '.' :: padTo 3 ms)) from rfl]
  rw [splitOnChar_append (hcolon H 2), splitOnChar_append (hcolon M 2),
    splitOnChar_no_sep hlast]
  simp only []
  rw [pyfloat_digits (padTo_ne_nil 2 H) (padTo_all_digit 2 H),
    pyfloat_digits (padTo_ne_nil 2 M) (padTo_all_digit 2 M),
    pyfloat_digits_dot (padTo_ne_nil 2 S) (padTo_all_digit 2 S)
      (padTo_ne_nil 3 ms) (padTo_all_digit 3 ms)]
  simp only [digitsVal_padTo]
  rw [padTo_len (show ms < 10 ^ 3 by norm_num [hms]) (by norm_num)]
  norm_num

theorem seconds_to_vtt_time_eq (s : ℚ) (hs : 0 ≤ s) :
    seconds_to_vtt_time s = String.mk (padTo 2 (⌊s / 3600⌋).toNat ++ ':' ::
      (padTo 2 (⌊pymod s 3600 / 60⌋).toNat ++ ':' ::
        (padTo 2 (⌊pymod s 60⌋).toNat ++ '.' :: padTo 3 (⌊pymod s 1 * 1000⌋).toNat))) := by
  have e1 : pyint (pyfloordiv s 3600) = ⌊s / 3600⌋ := by
    rw [pyfloordiv, pyint_intCast]
  have e2 : pyint (pyfloordiv (pymod s 3600) 60) = ⌊pymod s 3600 / 60⌋ := by
    rw [pyfloordiv, pyint_intCast]
  have e3 : pyint (pymod s 60) = ⌊pymod s 60⌋ :=
    pyint_nonneg_floor (pymod_nonneg s (by norm_num))
  have e4 : pyint (pymod s 1 * 1000) = ⌊pymod s 1 * 1000⌋ :=
    pyint_nonneg_floor (mul_nonneg (pymod_nonneg s (by norm_num)) (by norm_num))
  simp only [seconds_to_vtt_time, e1, e2, e3, e4, fmtPad,
    if_neg (not_lt.2 (hours_nonneg hs)), if_neg (not_lt.2 (minutes_bounds s).1),
    if_neg (not_lt.2 (secs_bounds s).1), if_neg (not_lt.2 (millis_bounds s).1)]
  simp [List.append_assoc]

theorem seconds_to_srt_time_eq (s : ℚ) (hs : 0 ≤ s) :
    seconds_to_srt_time s = String.mk (padTo 2 (⌊s / 3600⌋).toNat ++ ':' ::
      (padTo 2 (⌊pymod s 3600 / 60⌋).toNat ++ ':' ::
        (padTo 2 (⌊pymod s 60⌋).toNat ++ ',' :: padTo 3 (⌊pymod s 1 * 1000⌋).toNat))) := by
  have e1 : pyint (pyfloordiv s 3600) = ⌊s / 3600⌋ := by
    rw [pyfloordiv, pyint_intCast]
  have e2 : pyint (pyfloordiv (pymod s 3600) 60) = ⌊pymod s 3600 / 60⌋ := by
    rw [pyfloordiv, pyint_intCast]
  have e3 : pyint (pymod s 60) = ⌊pymod s 60⌋ :=
    pyint_nonneg_floor (pymod_nonneg s (by norm_num))
  have e4 : pyint (pymod s 1 * 1000) = ⌊pymod s 1 * 1000⌋ :=
    pyint_nonneg_floor (mul_nonneg (pymod_nonneg s (by norm_num)) (by norm_num))
  simp only [seconds_to_srt_time, e1, e2, e3, e4, fmtPad,
    if_neg (not_lt.2 (hours_nonneg hs)), if_neg (not_lt.2 (minutes_bounds s).1),
    if_neg (not_lt.2 (secs_bounds s).1), if_neg (not_lt.2 (millis_bounds s).1)]
  simp [List.append_assoc]

/-- C2 (amended): for every non-negative seconds offset `s`, re-parsing the
timed-text-markup (`.`-separated) rendering recovers `s` truncated to the
millisecond, hence a value within one millisecond of `s`.  The
subtitle-numbered (`,`-separated) rendering cannot be re-parsed by the one
timecode parser the source has (see the counterexample). -/
theorem c2_vtt_codec_round_trip (s : ℚ) (hs : 0 ≤ s) :
    time_to_seconds (seconds_to_vtt_time s) = some ((⌊1000 * s⌋ : ℚ) / 1000) ∧
    (⌊1000 * s⌋ : ℚ) / 1000 ≤ s ∧ s - 1 / 1000 < (⌊1000 * s⌋ : ℚ) / 1000 := by
  refine ⟨?_, ?_, ?_⟩
  · rw [seconds_to_vtt_time_eq s hs]
    rw [time_to_seconds_fields _ _ _ _ (by have := (millis_bounds s).2; omega)]
    congr 1
    have h1 : 0 ≤ ⌊s / 3600⌋ := hours_nonneg hs
    have h2 := (minutes_bounds s).1
    have h3 := (secs_bounds s).1
    have h4 := (millis_bounds s).1
    have c1 : ((⌊s / 3600⌋.toNat : ℕ) : ℚ) = ((⌊s / 3600⌋ : ℤ) : ℚ) := by
      exact_mod_cast congrArg (fun z : ℤ => (z : ℚ)) (Int.toNat_of_nonneg h1)
    have c2 : ((⌊pymod s 3600 / 60⌋.toNat : ℕ) : ℚ) = ((⌊pymod s 3600 / 60⌋ : ℤ) : ℚ) := by
      exact_mod_cast congrArg (fun z : ℤ => (z : ℚ)) (Int.toNat_of_nonneg h2)
    have c3 : ((⌊pymod s 60⌋.toNat : ℕ) : ℚ) = ((⌊pymod s 60⌋ : ℤ) : ℚ) := by
      exact_mod_cast congrArg (fun z : ℤ => (z : ℚ)) (Int.toNat_of_nonneg h3)
    have c4 : ((⌊pymod s 1 * 1000⌋.toNat : ℕ) : ℚ) = ((⌊pymod s 1 * 1000⌋ : ℤ) : ℚ) := by
      exact_mod_cast congrArg (fun z : ℤ => (z : ℚ)) (Int.toNat_of_nonneg h4)
    rw [c1, c2, c3, c4, floor_minutes, floor_secs, floor_millis]
    push_cast
    ring
  · have := Int.floor_le (1000 * s)
    linarith
  · have := Int.lt_floor_add_one (1000 * s)
    linarith

theorem c2_vtt_codec_round_trip_witness :
    time_to_seconds (seconds_to_vtt_time 2) = some ((⌊1000 * (2 : ℚ)⌋ : ℚ) / 1000) ∧
    (⌊1000 * (2 : ℚ)⌋ : ℚ) / 1000 ≤ 2 ∧
    (2 : ℚ) - 1 / 1000 < (⌊1000 * (2 : ℚ)⌋ : ℚ) / 1000 :=
  c2_vtt_codec_round_trip 2 (by norm_num)

/-- C2 (counterexample): at `s = 0` in the subtitle-numbered dialect,
`seconds_to_srt_time` renders `00:00:00,000`, and `time_to_seconds` — the
only timecode parser in the source — raises (`float` rejects the comma
field), so no value equal to `s` is returned. -/
theorem c2_srt_counterexample : time_to_seconds (seconds_to_srt_time 0) = none := by
  rw [seconds_to_srt_time_eq 0 le_rfl]
  norm_num [pymod]
  decide

/-- C9 (amended): every two-digit-field timestamp string `HH:MM:SS.mmm` with
a point decimal parses permissively — minute and second fields of 60 or more
are not rejected — to `hours*3600 + minutes*60 + seconds` including the
fractional milliseconds.  A comma-decimal string is rejected by
`time_to_seconds` (see the counterexample). -/
theorem c9_permissive_timecode_parse (h m s ms : ℕ) (hh : h < 100) (hm : m < 100)
    (hs : s < 100) (hms : ms < 1000) :
    time_to_seconds (String.mk (padTo 2 h ++ ':' ::
      (padTo 2 m ++ ':' :: (padTo 2 s ++ '.' :: padTo 3 ms))))
      = some ((h : ℚ) * 3600 + (m : ℚ) * 60 + ((s : ℚ) + (ms : ℚ) / 1000)) :=
  time_to_seconds_fields h m s ms hms

theorem c9_permissive_timecode_parse_witness :
    time_to_seconds (String.mk (padTo 2 0 ++ ':' ::
      (padTo 2 61 ++ ':' :: (padTo 2 0 ++ '.' :: padTo 3 0))))
      = some (((0 : ℕ) : ℚ) * 3600 + ((61 : ℕ) : ℚ) * 60 + (((0 : ℕ) : ℚ) + ((0 : ℕ) : ℚ) / 1000)) :=
  c9_permissive_timecode_parse 0 61 0 0 (by decide) (by decide) (by decide) (by decide)

/-- C9 (counterexample): the comma-decimal form the claim also covers is not
parsed: `time_to_seconds "00:61:00,000"` raises (modelled `none`) instead of
returning `3660`. -/
theorem c9_comma_counterexample : time_to_seconds "00:61:00,000" = none := by decide

/-! ## Lemmas: the `parse_vtt` scanner -/

theorem mk_data (s : String) : String.mk s.data = s := rfl

theorem data_ne_nil {s : String} (h : s ≠ "") : s.data ≠ [] := by
  intro e
  apply h
  cases s with
  | mk d =>
    simp only at e
    subst e
    rfl

theorem digit2_cons {a b : Char} (r : List Char) (ha : a.isDigit = true)
    (hb : b.isDigit = true) : digit2 (a :: b :: r) = some (a, b, r) := by
  simp [digit2, ha, hb]

theorem digit2_some : ∀ {l : List Char} {a b : Char} {r : List Char},
    digit2 l = some (a, b, r) → l = a :: b :: r ∧ a.isDigit = true ∧ b.isDigit = true
  | [], _, _, _, h => by simp [digit2] at h
  | [_], _, _, _, h => by simp [digit2] at h
  | x :: y :: ys, a, b, r, h => by
    by_cases hd : x.isDigit = true ∧ y.isDigit = true
    · simp only [digit2, if_pos hd] at h
      obtain ⟨h1, h2, h3⟩ : x = a ∧ y = b ∧ ys = r := by simpa using h
      subst h1
      subst h2
      subst h3
      exact ⟨rfl, hd.1, hd.2⟩
    · simp only [digit2, if_neg hd] at h
      cases h

theorem digit1_some : ∀ {l : List Char} {a : Char} {r : List Char},
    digit1 l = some (a, r) → l = a :: r ∧ a.isDigit = true
  | [], _, _, h => by simp [digit1] at h
  | x :: xs, a, r, h => by
    by_cases hd : x.isDigit = true
    · simp only [digit1, if_pos hd] at h
      obtain ⟨h1, h2⟩ : x = a ∧ xs = r := by simpa using h
      subst h1
      subst h2
      exact ⟨rfl, hd⟩
    · simp only [digit1, if_neg hd] at h
      cases h

theorem expectChar_some : ∀ {c : Char} {l r : List Char},
    expectChar c l = some r → l = c :: r
  | _, [], _, h => by simp [expectChar] at h
  | c, x :: xs, r, h => by
    by_cases hx : x = c
    · subst hx
      simp only [expectChar, if_pos rfl] at h
      obtain rfl : xs = r := by simpa using h
      rfl
    · simp [expectChar, hx] at h

theorem expectSeq_refl : ∀ (p r : List Char), expectSeq p (p ++ r) = some r
  | [], _ => rfl
  | x :: xs, r => by simp [expectSeq, expectSeq_refl xs r]

theorem tsPat_none_head {c : Char} {cs : List Char} (h : c.isDigit = false) :
    tsPat (c :: cs) = none := by
  have hd : digit2 (c :: cs) = none := by
    cases cs <;> simp [digit2, h]
  simp [tsPat, hd]

theorem tsPat_some {l t r : List Char} (h : tsPat l = some (t, r)) :
    l = t ++ r ∧ t.length = 12 ∧ ∀ r2, tsPat (t ++ r2) = some (t, r2) := by
  unfold tsPat at h
  simp only [Option.bind_eq_some] at h
  obtain ⟨⟨a, b, r1⟩, hd1, h⟩ := h
  obtain ⟨r2, he1, h⟩ := h
  obtain ⟨⟨c, d, r3⟩, hd2, h⟩ := h
  obtain ⟨r4, he2, h⟩ := h
  obtain ⟨⟨e, f, r5⟩, hd3, h⟩ := h
  obtain ⟨r6, he3, h⟩ := h
  obtain ⟨⟨g, h7, r7⟩, hd4, h⟩ := h
  obtain ⟨⟨i, r8⟩, hd5, h⟩ := h
  obtain ⟨ht, hr⟩ : [a, b, ':', c, d, ':', e, f, '.', g, h7, i] = t ∧ r8 = r := by
    simpa using h
  obtain ⟨hl1, ha, hb⟩ := digit2_some hd1
  have hl2 := expectChar_some he1
  obtain ⟨hl3, hc, hd⟩ := digit2_some hd2
  have hl4 := expectChar_some he2
  obtain ⟨hl5, he, hf⟩ := digit2_some hd3
  have hl6 := expectChar_some he3
  obtain ⟨hl7, hg, hh⟩ := digit2_some hd4
  obtain ⟨hl8, hi⟩ := digit1_some hd5
  subst ht
  subst hr
  subst hl8
  subst hl7
  subst hl6
  subst hl5
  subst hl4
  subst hl3
  subst hl2
  subst hl1
  refine ⟨rfl, rfl, ?_⟩
  intro r2
  simp [tsPat, List.cons_append, digit2_cons, expectChar, digit1, ha, hb, hc, hd, he, hf,
    hg, hh, hi]

theorem isTimestamp_elim {s : String} (h : isTimestamp s = true) :
    s.data.length = 12 ∧ ∀ r, tsPat (s.data ++ r) = some (s.data, r) := by
  unfold isTimestamp at h
  cases e : tsPat s.data with
  | none => rw [e] at h; simp at h
  | some v =>
    obtain ⟨t, r⟩ := v
    rw [e] at h
    cases r with
    | cons x xs => simp at h
    | nil =>
      obtain ⟨hl, hlen, hext⟩ := tsPat_some e
      rw [List.append_nil] at hl
      subst hl
      exact ⟨hlen, hext⟩

theorem matchTSline_none_head {c : Char} {cs : List Char} (h : c.isDigit = false) :
    matchTSline (c :: cs) = none := by
  simp [matchTSline, tsPat_none_head h]

theorem matchTSline_block {s1 s2 : String} (h1 : isTimestamp s1 = true)
    (h2 : isTimestamp s2 = true) (rest : List Char) :
    matchTSline (s1.data ++ ' ' :: '-' :: '-' :: '>' :: ' ' :: (s2.data ++ '\n' :: rest))
      = some (s1, s2, rest) := by
  obtain ⟨_, hx1⟩ := isTimestamp_elim h1
  obtain ⟨_, hx2⟩ := isTimestamp_elim h2
  unfold matchTSline
  rw [hx1]
  simp only [Option.some_bind]
  rw [show (' ' :: '-' :: '-' :: '>' :: ' ' :: (s2.data ++ '\n' :: rest))
    = " --> ".data ++ (s2.data ++ '\n' :: rest) from rfl, expectSeq_refl]
  simp only [Option.some_bind]
  rw [hx2]
  simp only [Option.some_bind]
  simp [expectChar, mk_data]

theorem parseVTTAux_nil : ∀ f, parseVTTAux f [] = [] := by
  intro f
  cases f <;> rfl

theorem parseVTTAux_step_some (f : ℕ) {l : List Char} (hne : l ≠ []) {t1 t2 : String}
    {rest : List Char} (h : matchTSline l = some (t1, t2, rest)) :
    parseVTTAux (f + 1) l =
      (let cleaned := removeTags (pyStripL (rest.takeWhile (fun x => x ≠ '\n')))
       if cleaned.isEmpty then parseVTTAux f (rest.dropWhile (fun x => x ≠ '\n'))
       else ⟨t1, t2, String.mk cleaned⟩ :: parseVTTAux f (rest.dropWhile (fun x => x ≠ '\n'))) := by
  obtain ⟨c, cs, rfl⟩ := List.exists_cons_of_ne_nil hne
  simp [parseVTTAux, h]

theorem parseVTTAux_step_none (f : ℕ) {l : List Char} (hne : l ≠ [])
    (h : matchTSline l = none) :
    parseVTTAux (f + 1) l = parseVTTAux f l.tail := by
  obtain ⟨c, cs, rfl⟩ := List.exists_cons_of_ne_nil hne
  simp [parseVTTAux, h]

theorem dropWhile_all_append {p : Char → Bool} :
    ∀ {l1 : List Char} {x : Char} {l2 : List Char}, (∀ c ∈ l1, p c = true) → p x = false →
    List.dropWhile p (l1 ++ x :: l2) = x :: l2
  | [], x, l2, _, hx => by simp [List.dropWhile_cons, hx]
  | c :: cs, x, l2, h, hx => by
    have hc : p c = true := h c (by simp)
    simp only [List.cons_append, List.dropWhile_cons, hc, if_true]
    exact dropWhile_all_append (fun y hy => h y (by simp [hy])) hx

theorem saveVttBody_cons (s : Segment) (rest : List Segment) :
    (saveVttBody (s :: rest)).data
      = s.start.data ++ ' ' :: '-' :: '-' :: '>' :: ' ' ::
        (s.stop.data ++ '\n' :: (s.text.data ++ '\n' :: '\n' :: (saveVttBody rest).data)) := by
  show (s.start ++ " --> " ++ s.stop ++ "\n" ++ s.text ++ "\n\n" ++ saveVttBody rest).data = _
  simp only [String.data_append, List.append_assoc]
  rfl

theorem parse_body : ∀ (segs : List Segment), (∀ s ∈ segs, GoodSeg s) →
    ∀ f, (saveVttBody segs).data.length ≤ f → parseVTTAux f (saveVttBody segs).data = segs
  | [], _, f, _ => by
    rw [show (saveVttBody []).data = [] from rfl]
    exact parseVTTAux_nil f
  | s :: rest, good, f, hf => by
    obtain ⟨hts1, hts2, hne, hnl, hstrip, htags⟩ := good s (by simp)
    have hrec : ∀ f', (saveVttBody rest).data.length ≤ f' →
        parseVTTAux f' (saveVttBody rest).data = rest :=
      parse_body rest (fun x hx => good x (by simp [hx]))
    rw [saveVttBody_cons] at hf ⊢
    set R := (saveVttBody rest).data with hR
    have h12a : s.start.data.length = 12 := (isTimestamp_elim hts1).1
    have h12b : s.stop.data.length = 12 := (isTimestamp_elim hts2).1
    have htx : 1 ≤ s.text.data.length := by
      have hd := data_ne_nil hne
      cases e : s.text.data with
      | nil => exact absurd e hd
      | cons _ _ => simp
    have hlenb : R.length + 33 ≤ (s.start.data ++ ' ' :: '-' :: '-' :: '>' :: ' ' ::
        (s.stop.data ++ '\n' :: (s.text.data ++ '\n' :: '\n' :: R))).length := by
      simp only [List.length_append, List.length_cons, h12a, h12b]
      omega
    have hf32 : R.length + 33 ≤ f := le_trans hlenb hf
    have hsne : s.start.data ≠ [] := by
      intro e
      rw [e] at h12a
      simp at h12a
    have hner : (s.start.data ++ ' ' :: '-' :: '-' :: '>' :: ' ' ::
        (s.stop.data ++ '\n' :: (s.text.data ++ '\n' :: '\n' :: R))) ≠ [] := by
      simp [hsne]
    obtain ⟨f1, rfl⟩ : ∃ f1, f = f1 + 1 := ⟨f - 1, by omega⟩
    rw [parseVTTAux_step_some f1 hner (matchTSline_block hts1 hts2 _)]
    have htw : (s.text.data ++ '\n' :: '\n' :: R).takeWhile (fun x => x ≠ '\n')
        = s.text.data :=
      takeWhile_all_append (fun c hc => by simp [hnl c hc]) (by decide)
    have hdw : (s.text.data ++ '\n' :: '\n' :: R).dropWhile (fun x => x ≠ '\n')
        = '\n' :: '\n' :: R :=
      dropWhile_all_append (fun c hc => by simp [hnl c hc]) (by decide)
    have hteNe : s.text.data.isEmpty = false := by
      cases e : s.text.data with
      | nil => exact absurd e (data_ne_nil hne)
      | cons _ _ => rfl
    simp only [htw, hdw, hstrip, htags, hteNe, Bool.false_eq_true, if_false]
    rw [mk_data]
    obtain ⟨f2, rfl⟩ : ∃ f2, f1 = f2 + 1 := ⟨f1 - 1, by omega⟩
    rw [parseVTTAux_step_none f2 (by simp) (matchTSline_none_head (by decide))]
    rw [List.tail_cons]
    obtain ⟨f3, rfl⟩ : ∃ f3, f2 = f3 + 1 := ⟨f2 - 1, by omega⟩
    rw [parseVTTAux_step_none f3 (by simp) (matchTSline_none_head (by decide))]
    rw [List.tail_cons]
    rw [hrec f3 (by omega)]

/-- C1 (amended): the timed-text-markup dialect round-trips: parsing the
serialization of any Segment Sequence whose segments have canonical
`HH:MM:SS.mmm` timestamps and non-empty, single-line, stripped, markup-free
text reproduces the sequence exactly (hence same count, identical texts, and
timestamps preserved exactly — in particular to within 1 millisecond).  The
source has Segment-Sequence parsers for no other dialect, and without the
text side conditions even this dialect fails (see the counterexample). -/
theorem c1_vtt_round_trip (segs : List Segment) (good : ∀ s ∈ segs, GoodSeg s) :
    parse_vtt (save_vtt segs) = segs := by
  unfold parse_vtt save_vtt
  rw [String.data_append]
  rw [show ("WEBVTT\n\n" : String).data
    = 'W' :: 'E' :: 'B' :: 'V' :: 'T' :: 'T' :: '\n' :: '\n' :: [] from rfl]
  simp only [List.cons_append, List.nil_append, List.length_cons]
  rw [parseVTTAux_step_none _ (by simp) (matchTSline_none_head (by decide)), List.tail_cons]
  rw [parseVTTAux_step_none _ (by simp) (matchTSline_none_head (by decide)), List.tail_cons]
  rw [parseVTTAux_step_none _ (by simp) (matchTSline_none_head (by decide)), List.tail_cons]
  rw [parseVTTAux_step_none _ (by simp) (matchTSline_none_head (by decide)), List.tail_cons]
  rw [parseVTTAux_step_none _ (by simp) (matchTSline_none_head (by decide)), List.tail_cons]
  rw [parseVTTAux_step_none _ (by simp) (matchTSline_none_head (by decide)), List.tail_cons]
  rw [parseVTTAux_step_none _ (by simp) (matchTSline_none_head (by decide)), List.tail_cons]
  rw [parseVTTAux_step_none _ (by simp) (matchTSline_none_head (by decide)), List.tail_cons]
  exact parse_body segs good _ le_rfl

theorem c1_vtt_round_trip_witness :
    parse_vtt (save_vtt [⟨"00:00:01.500", "00:00:03.000", "Hello world"⟩])
      = [⟨"00:00:01.500", "00:00:03.000", "Hello world"⟩] :=
  c1_vtt_round_trip _ (by decide)

/-- C1 (counterexample): the segment `⟨00:00:01.500, 00:00:03.000, "<b>"⟩`
satisfies the claim's hypotheses (`end ≥ start`, non-empty text), yet
serializing to the timed-text-markup dialect and re-parsing drops the
segment (its text is erased by markup-tag removal): the parse yields zero
segments, not one. -/
theorem c1_counterexample :
    parse_vtt (save_vtt [⟨"00:00:01.500", "00:00:03.000", "<b>"⟩]) = [] := by decide

/-- C5: parsing the given timed-text-markup input yields exactly one segment
`(start 00:00:01.500, end 00:00:03.000, text "Hello world")` — i.e. start
1.5 s and end 3.0 s — and serializing that segment to the subtitle-numbered
dialect yields exactly the expected numbered block. -/
theorem c5_concrete_example :
    parse_vtt "00:00:01.500 --> 00:00:03.000\nHello world\n\n"
      = [⟨"00:00:01.500", "00:00:03.000", "Hello world"⟩] ∧
    save_srt [⟨"00:00:01.500", "00:00:03.000", "Hello world"⟩]
      = some "1\n00:00:01,500 --> 00:00:03,000\nHello world\n\n" := by
  constructor
  · decide
  · have e1 : time_to_seconds "00:00:01.500" = some (3 / 2 : ℚ) := by
      rw [show ("00:00:01.500" : String)
        = String.mk (padTo 2 0 ++ ':' :: (padTo 2 0 ++ ':' :: (padTo 2 1 ++ '.' :: padTo 3 500)))
        from by decide]
      rw [time_to_seconds_fields 0 0 1 500 (by norm_num)]
      norm_num
    have e2 : time_to_seconds "00:00:03.000" = some (3 : ℚ) := by
      rw [show ("00:00:03.000" : String)
        = String.mk (padTo 2 0 ++ ':' :: (padTo 2 0 ++ ':' :: (padTo 2 3 ++ '.' :: padTo 3 0)))
        from by decide]
      rw [time_to_seconds_fields 0 0 3 0 (by norm_num)]
      norm_num
    have s1 : seconds_to_srt_time (3 / 2 : ℚ) = "00:00:01,500" := by
      have v1 : ⌊(3 / 2 : ℚ) / 3600⌋ = (0 : ℤ) := by norm_num
      have v2 : ⌊pymod (3 / 2 : ℚ) 3600 / 60⌋ = (0 : ℤ) := by norm_num [pymod]
      have v3 : ⌊pymod (3 / 2 : ℚ) 60⌋ = (1 : ℤ) := by norm_num [pymod]
      have v4 : ⌊pymod (3 / 2 : ℚ) 1 * 1000⌋ = (500 : ℤ) := by norm_num [pymod]
      rw [seconds_to_srt_time_eq (3 / 2) (by norm_num), v1, v2, v3, v4]
      decide
    have s2 : seconds_to_srt_time (3 : ℚ) = "00:00:03,000" := by
      have v1 : ⌊(3 : ℚ) / 3600⌋ = (0 : ℤ) := by norm_num
      have v2 : ⌊pymod (3 : ℚ) 3600 / 60⌋ = (0 : ℤ) := by norm_num [pymod]
      have v3 : ⌊pymod (3 : ℚ) 60⌋ = (3 : ℤ) := by norm_num [pymod]
      have v4 : ⌊pymod (3 : ℚ) 1 * 1000⌋ = (0 : ℤ) := by norm_num [pymod]
      rw [seconds_to_srt_time_eq (3 : ℚ) (by norm_num), v1, v2, v3, v4]
      decide
    simp only [save_srt, saveSrtBody, e1, e2, s1, s2]
    decide

/-- C7: the audio-download/transcription path is taken iff no fetched caption
document validates or the accepted document parses to zero segments;
equivalently, transcription is skipped exactly when the orchestrator accepts
a valid document that parses to at least one segment. -/
theorem c7_transcription_iff (a1 a2 : Option String) :
    (transcribeNeeded a1 a2 = true ↔
      (check_youtube_transcript a1 a2 = none ∨
        ∃ c, check_youtube_transcript a1 a2 = some c ∧ parse_vtt c = [])) ∧
    (transcribeNeeded a1 a2 = false ↔
      ∃ c, check_youtube_transcript a1 a2 = some c ∧ parse_vtt c ≠ []) := by
  cases e : check_youtube_transcript a1 a2 with
  | none => simp [transcribeNeeded, e]
  | some c =>
    by_cases hp : parse_vtt c = []
    · simp [transcribeNeeded, e, hp]
    · simp [transcribeNeeded, e, hp, List.isEmpty_iff_eq_nil]

/-- C8: a fetched caption document is accepted exactly when its stripped
content is longer than the 10-character threshold and contains a
`\d{2}:\d{2}:\d{2}` timestamp pattern; in particular a document consisting
of the header line only is rejected by the restricted-language attempt and
the orchestrator proceeds to the unrestricted/auto-caption attempt. -/
theorem c8_caption_validation (a2 : Option String) :
    (∀ c : String, validContent c = true ↔
      (10 < (pyStripL c.data).length ∧ hasTS (pyStripL c.data) = true)) ∧
    check_youtube_transcript (some "WEBVTT\n") a2 = tryUnrestricted a2 := by
  constructor
  · intro c
    simp [validContent]
  · have hv : validContent "WEBVTT\n" = false := by decide
    simp [check_youtube_transcript, hv]

/-- C3 (amended): on UTF-8-decodable byte content the Plain-Text Extractor
returns a result for every recognized extension, provided (for `.json`) the
decoded list's contributed text fields are strings; on an unrecognized
extension it returns the decoded input trimmed of outer whitespace.  On
byte content that is not UTF-8, `read_text` raises before any branch runs
(see the counterexample). -/
theorem c3_extractor_total (suffix : String) (bytes : List ℕ) (cs : List Char)
    (hdec : utf8Decode bytes = some cs)
    (hjson : suffix = ".json" → jsonJoinOk (String.mk cs) = true) :
    (parse_transcript_file_bytes suffix bytes).isSome = true ∧
    (suffix ≠ ".txt" → suffix ≠ ".vtt" → suffix ≠ ".srt" → suffix ≠ ".json" →
      parse_transcript_file_bytes suffix bytes = some (pyStrip (String.mk cs))) := by
  have hb : parse_transcript_file_bytes suffix bytes
      = parse_transcript_file suffix (String.mk cs) := by
    simp [parse_transcript_file_bytes, hdec]
  constructor
  · rw [hb]
    unfold parse_transcript_file
    by_cases h1 : suffix = ".txt"
    · simp [h1]
    · by_cases h2 : suffix = ".vtt"
      · simp [h1, h2]
      · by_cases h3 : suffix = ".srt"
        · simp [h1, h2, h3]
        · by_cases h4 : suffix = ".json"
          · rw [if_neg h1, if_neg h2, if_neg h3, if_pos h4]
            have hj := hjson h4
            unfold jsonJoinOk at hj
            cases e : json_loads (String.mk cs) with
            | none => simp [e]
            | some v =>
              cases v with
              | null => simp [e]
              | bool b => simp [e]
              | num isF q => simp [e]
              | str s => simp [e]
              | obj kvs => simp [e]
              | arr l =>
                rw [e] at hj
                cases ec : collectTexts l with
                | none => simp [ec] at hj
                | some ts => simp [e, ec]
          · simp [h1, h2, h3, h4]
  · intro h1 h2 h3 h4
    rw [hb]
    unfold parse_transcript_file
    simp [h1, h2, h3, h4]

theorem c3_extractor_total_witness :
    (parse_transcript_file_bytes ".docx" [104, 105]).isSome = true ∧
    parse_transcript_file_bytes ".docx" [104, 105] = some "hi" := by
  have h := c3_extractor_total ".docx" [104, 105] ['h', 'i'] (by decide) (by decide)
  refine ⟨h.1, ?_⟩
  rw [h.2 (by decide) (by decide) (by decide) (by decide)]
  decide

/-- C3 (counterexample): the single byte `0xFF` is not UTF-8, so with the
recognized extension `.txt` the extractor raises `UnicodeDecodeError` in
`read_text` (modelled `none`) instead of returning a result. -/
theorem c3_counterexample : parse_transcript_file_bytes ".txt" [255] = none := by decide

/-- C6 (amended): the structured branch behaves as specified — a decoded
list yields the newline-join of the text fields contributed by its object
elements (object elements contribute `get('text','')`, non-objects are
skipped) provided each contributed field is a string (a non-string field
makes the join raise, see the counterexample); a decoded non-list yields its
`str()` representation; undecodable content is returned unchanged.  The
concrete document of the claim yields `"a\nb"`. -/
theorem c6_structured_branch :
    (∀ content : String, parse_transcript_file ".json" content = jsonExtractSpec content) ∧
    parse_transcript_file ".json" "[\x7b\"text\": \"a\"\x7d, \x7b\"text\": \"b\"\x7d]"
      = some "a\nb" := by
  constructor
  · intro content
    unfold parse_transcript_file jsonExtractSpec
    rw [if_neg (by decide), if_neg (by decide), if_neg (by decide), if_pos rfl]
    cases e : json_loads content with
    | none => simp
    | some v =>
      cases v with
      | null => simp
      | bool b => simp
      | num isF q => simp
      | str s => simp
      | obj kvs => simp
      | arr l =>
        cases ec : collectTexts l with
        | none => simp [ec]
        | some ts => simp [ec]
  · decide

/-- C6 (counterexample): the structured document `[{"text": 5}]` decodes to
a list, but the extractor raises `TypeError` in `'\n'.join` (modelled
`none`) instead of returning the concatenated text fields. -/
theorem c6_counterexample : parse_transcript_file ".json" "[\x7b\"text\": 5\x7d]" = none := by
  decide

/-! ## Lemmas: output-format selection -/

theorem formats_vtt_mem (fmtArgs : Option (List String)) (txtFlag : Bool) :
    "vtt" ∈ formats_to_save fmtArgs txtFlag := by
  unfold formats_to_save
  cases fmtArgs with
  | none => by_cases ht : txtFlag <;> simp [ht]
  | some fs =>
    by_cases hall : "all" ∈ fs <;> by_cases ht : txtFlag <;> simp [hall, ht]

theorem formats_subset (fmtArgs : Option (List String)) (txtFlag : Bool)
    (hvalid : ∀ x ∈ fmtArgs.getD [], x = "txt" ∨ x = "srt" ∨ x = "json" ∨ x = "all") :
    formats_to_save fmtArgs txtFlag ⊆ {"vtt", "txt", "srt", "json"} := by
  intro x hx
  cases fmtArgs with
  | none =>
    simp only [formats_to_save] at hx
    by_cases ht : txtFlag
    · rw [if_pos ht] at hx
      rcases Finset.mem_union.1 hx with h1 | h1 <;> (simp at h1; subst h1; simp)
    · rw [if_neg ht] at hx
      simp at hx
      subst hx
      simp
  | some fs =>
    simp only [formats_to_save] at hx
    by_cases hall : "all" ∈ fs
    · rw [if_pos hall] at hx
      by_cases ht : txtFlag
      · rw [if_pos ht] at hx
        rcases Finset.mem_union.1 hx with h1 | h1
        · exact h1
        · simp at h1
          subst h1
          simp
      · rw [if_neg ht] at hx
        exact hx
    · rw [if_neg hall] at hx
      have hbase : ∀ y, y ∈ fs.toFinset ∪ ({"vtt"} : Finset String) →
          y ∈ ({"vtt", "txt", "srt", "json"} : Finset String) := by
        intro y hy
        rcases Finset.mem_union.1 hy with h1 | h1
        · rcases hvalid y (by simpa using List.mem_toFinset.1 h1) with rfl | rfl | rfl | rfl
          · simp
          · simp
          · simp
          · exact absurd (List.mem_toFinset.1 h1) hall
        · simp at h1
          subst h1
          simp
      by_cases ht : txtFlag
      · rw [if_pos ht] at hx
        rcases Finset.mem_union.1 hx with h1 | h1
        · exact hbase x h1
        · simp at h1
          subst h1
          simp
      · rw [if_neg ht] at hx
        exact hbase x hx

theorem mem_of_mem_ifsingle {F : Finset String} {c x e : String}
    (hx : x ∈ (if c ∈ F then [e] else [])) : c ∈ F ∧ x = e := by
  by_cases hb : c ∈ F
  · rw [if_pos hb] at hx
    simp at hx
    exact ⟨hb, hx⟩
  · rw [if_neg hb] at hx
    simp at hx

theorem writtenExts_toFinset {F : Finset String} (h : F ⊆ {"vtt", "txt", "srt", "json"}) :
    (writtenExts F).toFinset = F := by
  ext x
  rw [List.mem_toFinset]
  constructor
  · intro hx
    unfold writtenExts at hx
    rcases List.mem_append.1 hx with hx | hx4
    · rcases List.mem_append.1 hx with hx | hx3
      · rcases List.mem_append.1 hx with hx1 | hx2
        · obtain ⟨hin, rfl⟩ := mem_of_mem_ifsingle hx1
          exact hin
        · obtain ⟨hin, rfl⟩ := mem_of_mem_ifsingle hx2
          exact hin
      · obtain ⟨hin, rfl⟩ := mem_of_mem_ifsingle hx3
        exact hin
    · obtain ⟨hin, rfl⟩ := mem_of_mem_ifsingle hx4
      exact hin
  · intro hx
    have hx4 := h hx
    unfold writtenExts
    simp only [Finset.mem_insert, Finset.mem_singleton] at hx4
    rcases hx4 with rfl | rfl | rfl | rfl <;> simp [hx]

/-- C4 (amended): the output section writes exactly the files of the
computed format set — the requested dialects plus always `vtt` (and all four
when `all` is requested): the written extensions form precisely
`formats_to_save`, `vtt` is always selected, and any written dialect that
was not requested (by `--format`, by `--txt`, or via `all`) is `vtt`. -/
theorem c4_output_formats (fmtArgs : Option (List String)) (txtFlag : Bool)
    (hvalid : ∀ x ∈ fmtArgs.getD [], x = "txt" ∨ x = "srt" ∨ x = "json" ∨ x = "all") :
    (writtenExts (formats_to_save fmtArgs txtFlag)).toFinset = formats_to_save fmtArgs txtFlag ∧
    "vtt" ∈ formats_to_save fmtArgs txtFlag ∧
    (∀ d ∈ formats_to_save fmtArgs txtFlag, d ∉ fmtArgs.getD [] →
      ¬(txtFlag = true ∧ d = "txt") → "all" ∉ fmtArgs.getD [] → d = "vtt") := by
  refine ⟨writtenExts_toFinset (formats_subset fmtArgs txtFlag hvalid),
    formats_vtt_mem fmtArgs txtFlag, ?_⟩
  intro d hd hreq htxt hall
  cases fmtArgs with
  | none =>
    simp only [formats_to_save] at hd
    by_cases ht : txtFlag
    · rw [if_pos ht] at hd
      rcases Finset.mem_union.1 hd with h1 | h1
      · simpa using h1
      · simp at h1
        exact absurd ⟨ht, h1⟩ htxt
    · rw [if_neg ht] at hd
      simpa using hd
  | some fs =>
    simp only [formats_to_save] at hd
    simp only [Option.getD_some] at hreq hall
    rw [if_neg hall] at hd
    by_cases ht : txtFlag
    · rw [if_pos ht] at hd
      rcases Finset.mem_union.1 hd with h1 | h1
      · rcases Finset.mem_union.1 h1 with h2 | h2
        · exact absurd (List.mem_toFinset.1 h2) hreq
        · simpa using h2
      · simp at h1
        exact absurd ⟨ht, h1⟩ htxt
    · rw [if_neg ht] at hd
      rcases Finset.mem_union.1 hd with h2 | h2
      · exact absurd (List.mem_toFinset.1 h2) hreq
      · simpa using h2

theorem c4_output_formats_witness :
    (writtenExts (formats_to_save (some ["srt"]) true)).toFinset
      = formats_to_save (some ["srt"]) true ∧
    "vtt" ∈ formats_to_save (some ["srt"]) true := by
  have h := c4_output_formats (some ["srt"]) true (by decide)
  exact ⟨h.1, h.2.1⟩

/-- C4 (counterexample): when the requested subset is `txt` alone
(`--format txt`, no `--txt` flag), the program still writes the `vtt` file:
the written extensions are `vtt` and `txt`, though `vtt` was not requested. -/
theorem c4_counterexample :
    writtenExts (formats_to_save (some ["txt"]) false) = ["vtt", "txt"] ∧
    ("vtt" : String) ∉ ["txt"] := by decide

/-! ## Lemmas: transcript-file discovery -/

theorem pyLt_irrefl : ∀ l : List Char, pyLt l l = false
  | [] => rfl
  | a :: xs => by simp [pyLt, lt_irrefl, pyLt_irrefl xs]

theorem pyLt_asymm : ∀ {a b : List Char}, pyLt a b = true → pyLt b a = false
  | a, [], h => by
    rw [show pyLt a [] = false from by cases a <;> rfl] at h
    cases h
  | [], b :: bs, _ => by cases b <;> rfl
  | a :: xs, b :: bs, h => by
    by_cases hab : a < b
    · simp [pyLt, asymm hab, hab]
    · by_cases hba : b < a
      · simp only [pyLt, if_neg hab, if_pos hba] at h
        cases h
      · have hrec : pyLt xs bs = true := by
          simpa [pyLt, if_neg hab, if_neg hba] using h
        simp [pyLt, hab, hba, pyLt_asymm hrec]

theorem pyLt_trich : ∀ a b : List Char, pyLt a b = true ∨ a = b ∨ pyLt b a = true
  | [], [] => Or.inr (Or.inl rfl)
  | [], b :: bs => Or.inl (by simp [pyLt])
  | a :: xs, [] => Or.inr (Or.inr (by simp [pyLt]))
  | a :: xs, b :: bs => by
    rcases lt_trichotomy a b with h | h | h
    · exact Or.inl (by simp [pyLt, h])
    · subst h
      rcases pyLt_trich xs bs with h2 | h2 | h2
      · exact Or.inl (by simp [pyLt, lt_irrefl, h2])
      · exact Or.inr (Or.inl (by rw [h2]))
      · exact Or.inr (Or.inr (by simp [pyLt, lt_irrefl, h2]))
    · exact Or.inr (Or.inr (by simp [pyLt, h]))

theorem pyLt_trans : ∀ {a b c : List Char}, pyLt a b = true → pyLt b c = true →
    pyLt a c = true
  | a, b, [], _, h2 => by
    rw [show pyLt b [] = false from by cases b <;> rfl] at h2
    cases h2
  | a, [], c :: cs, h1, _ => by
    rw [show pyLt a [] = false from by cases a <;> rfl] at h1
    cases h1
  | [], b :: bs, c :: cs, _, _ => by simp [pyLt]
  | a :: xs, b :: bs, c :: cs, h1, h2 => by
    by_cases hab : a < b
    · by_cases hbc : b < c
      · simp [pyLt, lt_trans hab hbc]
      · by_cases hcb : c < b
        · simp only [pyLt, if_neg hbc, if_pos hcb] at h2
          cases h2
        · have hbceq : b = c := le_antisymm (not_lt.1 hcb) (not_lt.1 hbc)
          subst hbceq
          simp [pyLt, hab]
    · by_cases hba : b < a
      · simp only [pyLt, if_neg hab, if_pos hba] at h1
        cases h1
      · have habeq : a = b := le_antisymm (not_lt.1 hba) (not_lt.1 hab)
        subst habeq
        by_cases hac : a < c
        · simp [pyLt, hac]
        · by_cases hca : c < a
          · simp only [pyLt, if_neg hac, if_pos hca] at h2
            cases h2
          · have h1r : pyLt xs bs = true := by
              simpa [pyLt, lt_irrefl] using h1
            have h2r : pyLt bs cs = true := by
              simpa [pyLt, if_neg hac, if_neg hca] using h2
            simp [pyLt, hac, hca, pyLt_trans h1r h2r]

theorem pyLe_refl (a : String) : pyLe a a = true := by
  simp [pyLe, pyLt_irrefl]

theorem pyLe_total (a b : String) : pyLe a b = true ∨ pyLe b a = true := by
  unfold pyLe
  by_cases h : pyLt b.data a.data = true
  · right
    simp [pyLt_asymm h]
  · left
    simp [Bool.not_eq_true] at h
    simp [h]

theorem pyLe_trans {a b c : String} (h1 : pyLe a b = true) (h2 : pyLe b c = true) :
    pyLe a c = true := by
  simp only [pyLe, Bool.not_eq_true', Bool.not_eq_true] at *
  by_contra hc
  simp only [Bool.not_eq_false] at hc
  rcases pyLt_trich b.data c.data with hbc | hbc | hbc
  · have := pyLt_trans hbc hc
    rw [this] at h1
    cases h1
  · rw [hbc] at h1
    rw [hc] at h1
    cases h1
  · rw [hbc] at h2
    cases h2

theorem srtInsert_mem {x : String} : ∀ {l : List String} {a : String},
    a ∈ srtInsert x l ↔ a = x ∨ a ∈ l
  | [], a => by simp [srtInsert]
  | y :: ys, a => by
    by_cases hxy : pyLe x y = true
    · simp [srtInsert, hxy]
    · simp only [srtInsert, if_neg hxy, List.mem_cons, srtInsert_mem (l := ys)]
      tauto

theorem srtInsert_pairwise {x : String} : ∀ {l : List String},
    l.Pairwise (fun a b => pyLe a b = true) →
    (srtInsert x l).Pairwise (fun a b => pyLe a b = true)
  | [], _ => by simp [srtInsert]
  | y :: ys, h => by
    by_cases hxy : pyLe x y = true
    · simp only [srtInsert, if_pos hxy]
      refine List.Pairwise.cons ?_ h
      intro z hz
      rcases List.mem_cons.1 hz with rfl | hz2
      · exact hxy
      · exact pyLe_trans hxy (List.rel_of_pairwise_cons h hz2)
    · simp only [srtInsert, if_neg hxy]
      have hyx : pyLe y x = true := (pyLe_total x y).resolve_left hxy
      have hys := List.pairwise_cons.1 h
      refine List.Pairwise.cons ?_ (srtInsert_pairwise hys.2)
      intro z hz
      rcases srtInsert_mem.1 hz with rfl | hz2
      · exact hyx
      · exact hys.1 z hz2

theorem pySorted_pairwise : ∀ l : List String,
    (pySorted l).Pairwise (fun a b => pyLe a b = true)
  | [] => List.Pairwise.nil
  | x :: xs => srtInsert_pairwise (pySorted_pairwise xs)

theorem pySorted_mem : ∀ {l : List String} {a : String}, a ∈ pySorted l ↔ a ∈ l
  | [], a => Iff.rfl
  | x :: xs, a => by
    simp [pySorted, srtInsert_mem, pySorted_mem (l := xs)]

theorem dedupeAux_split : ∀ {l seen : List String} {f : String}, f ∈ dedupeAux seen l →
    pyStem f ∉ seen ∧ ∃ l1 l2, l = l1 ++ f :: l2 ∧ ∀ g ∈ l1, pyStem g ≠ pyStem f
  | [], seen, f, h => by simp [dedupeAux] at h
  | x :: xs, seen, f, h => by
    by_cases hx : pyStem x ∈ seen
    · simp only [dedupeAux, if_pos hx] at h
      obtain ⟨hns, l1, l2, heq, hpre⟩ := dedupeAux_split h
      refine ⟨hns, x :: l1, l2, by rw [heq]; rfl, ?_⟩
      intro g hg
      rcases List.mem_cons.1 hg with rfl | hg2
      · intro e
        exact hns (e ▸ hx)
      · exact hpre g hg2
    · simp only [dedupeAux, if_neg hx] at h
      rcases List.mem_cons.1 h with rfl | h2
      · exact ⟨hx, [], xs, rfl, by simp⟩
      · obtain ⟨hns, l1, l2, heq, hpre⟩ := dedupeAux_split h2
        have hxf : pyStem x ≠ pyStem f := by
          intro e
          exact hns (by simp [e])
        refine ⟨fun hin => hns (by simp [hin]), x :: l1, l2, by rw [heq]; rfl, ?_⟩
        intro g hg
        rcases List.mem_cons.1 hg with rfl | hg2
        · exact hxf
        · exact hpre g hg2

theorem dedupeAux_stems_nodup : ∀ (l seen : List String),
    ((dedupeAux seen l).map pyStem).Nodup ∧ ∀ x ∈ dedupeAux seen l, pyStem x ∉ seen
  | [], seen => ⟨by simp [dedupeAux], by simp [dedupeAux]⟩
  | x :: xs, seen => by
    by_cases hx : pyStem x ∈ seen
    · simp only [dedupeAux, if_pos hx]
      exact dedupeAux_stems_nodup xs seen
    · simp only [dedupeAux, if_neg hx]
      obtain ⟨hnd, hnotin⟩ := dedupeAux_stems_nodup xs (pyStem x :: seen)
      refine ⟨?_, ?_⟩
      · simp only [List.map_cons, List.nodup_cons]
        refine ⟨?_, hnd⟩
        intro hmem
        obtain ⟨y, hy, hye⟩ := List.mem_map.1 hmem
        exact hnotin y hy (by simp [hye])
      · intro z hz
        rcases List.mem_cons.1 hz with rfl | hz2
        · exact hx
        · intro hzi
          exact hnotin z hz2 (by simp [hzi])

/-- C10: transcript-file discovery returns at most one file per base name —
the mapped stems of the result are pairwise distinct — and every returned
file is a candidate (a name with one of the four recognized extensions) that
is least in Python string order among the candidates sharing its stem, i.e.
the first in sorted path order among those siblings. -/
theorem c10_one_file_per_stem (names : List String) (f : String)
    (hf : f ∈ list_transcript_files names) :
    ((list_transcript_files names).map pyStem).Nodup ∧
    f ∈ candidateFiles names ∧
    ∀ g ∈ candidateFiles names, pyStem g = pyStem f → pyLe f g = true := by
  refine ⟨(dedupeAux_stems_nodup (pySorted (candidateFiles names)) []).1, ?_, ?_⟩
  · obtain ⟨-, l1, l2, heq, -⟩ := dedupeAux_split hf
    have hmem : f ∈ pySorted (candidateFiles names) := by
      rw [heq]
      simp
    exact pySorted_mem.1 hmem
  · intro g hg hstem
    obtain ⟨-, l1, l2, heq, hpre⟩ := dedupeAux_split hf
    have hgs : g ∈ pySorted (candidateFiles names) := pySorted_mem.2 hg
    rw [heq] at hgs
    rcases List.mem_append.1 hgs with hg1 | hg2
    · exact absurd hstem (hpre g hg1)
    · rcases List.mem_cons.1 hg2 with rfl | hg3
      · exact pyLe_refl _
      · have hp := pySorted_pairwise (candidateFiles names)
        rw [heq] at hp
        have hp2 := (List.pairwise_append.1 hp).2.1
        exact List.rel_of_pairwise_cons hp2 hg3

theorem c10_one_file_per_stem_witness :
    ((list_transcript_files ["b.txt", "b.vtt", "a.srt"]).map pyStem).Nodup ∧
    "b.txt" ∈ candidateFiles ["b.txt", "b.vtt", "a.srt"] := by
  have h := c10_one_file_per_stem ["b.txt", "b.vtt", "a.srt"] "b.txt" (by decide)
  exact ⟨h.1, h.2.1⟩
